import Mathlib

/-
Verification of the natural-language specification of the azure-cli network
command module (src/command_modules/azure-cli-network/.../network/custom.py)
against a shallow embedding of its Python source in Lean 4.

Conventions of the embedding:
- Python attribute bags become Lean structures holding exactly the fields the
  functions under verification read or write; fields the SDK leaves unset are
  Option-typed when the source can observe None there.
- Fallible Python code (raise) is embedded as Except PyErr; PyErr records which
  exception class escapes (CLIError versus an uncaught TypeError etc.).
- list.remove(x) removes the first element equal to x; it is embedded as
  List.erase of the element found by List.find?, which is the first structural
  match, so the embedding agrees with Python object identity here.
- Python truthiness of optional strings (None and the empty string are falsy)
  is embedded as pyTruthy.
- Names ending in tokens the verification toolchain reserves are renamed with
  a pfx suffix: address_pfx stands for the source field address_prefix, and
  similarly source_address_pfx, destination_address_pfx, primary_peer_address_pfx,
  secondary_peer_address_pfx.
-/

set_option autoImplicit false

namespace AzCli

/-- Which Python exception escapes an embedded operation. cliError is the
CLIError raised for user-facing errors; the others are uncaught builtin
exceptions. -/
inductive PyErr where
  | cliError
  | typeError
  | keyError
  | indexError
  | attributeError
  | serverCall
  | modelMismatch
deriving DecidableEq

/-- Decidable equality of embedded outcomes, so that concrete witnesses can be
checked by evaluation. -/
instance exceptDecEq {ε α : Type} [DecidableEq ε] [DecidableEq α] :
    DecidableEq (Except ε α) := fun x y =>
  match x, y with
  | .error a, .error b =>
    if h : a = b then isTrue (by rw [h]) else isFalse (by simp [h])
  | .error _, .ok _ => isFalse (by simp)
  | .ok _, .error _ => isFalse (by simp)
  | .ok a, .ok b =>
    if h : a = b then isTrue (by rw [h]) else isFalse (by simp [h])

/-- Python truthiness of an optional string: None and the empty string are
falsy, every other string is truthy. -/
def pyTruthy : Option String → Bool
  | none => false
  | some s => !(s == "")

/-- Replace the first element satisfying p by f of it, leaving the rest of the
list unchanged (Python in-place mutation of the object found by next()). -/
def updateFirst {α : Type} (p : α → Bool) (f : α → α) : List α → List α
  | [] => []
  | x :: xs => if p x then f x :: xs else x :: updateFirst p f xs

/-- The generic upsert helper, custom.py lines 42-47: find the first element of
the collection whose key attribute equals key_value; if found, remove it
(logging a replacement warning, a side effect not modelled); then append obj.
getattr with default None is embedded as a key function into Option String. -/
def _upsert {α : Type} [DecidableEq α] (collection : List α) (obj : α)
    (key : α → Option String) (key_value : String) : List α :=
  match collection.find? (fun x => key x == some key_value) with
  | some m => collection.erase m ++ [obj]
  | none => collection ++ [obj]

/-- VpnClientRootCertificate model: name and public certificate data. -/
structure VpnClientRootCertificate where
  name : String
  public_cert_data : String
deriving DecidableEq

/-- VpnClientConfiguration model: the root-certificate collection, None when the
service has not populated it. -/
structure VpnClientConfiguration where
  vpn_client_root_certificates : Option (List VpnClientRootCertificate) := none
deriving DecidableEq

/-- VirtualNetworkGateway model: the VPN client configuration, None when the
gateway has no such configuration. -/
structure VirtualNetworkGateway where
  vpn_client_configuration : Option VpnClientConfiguration := none
deriving DecidableEq

/-- delete_vnet_gateway_root_cert, custom.py lines 1052-1063. The source wraps
the lookup in try/except (AttributeError, StopIteration) and raises CLIError
for those; a None certificate list makes the generator expression raise
TypeError, which is not caught. On success the found certificate is removed
from the collection and the gateway resubmitted. -/
def delete_vnet_gateway_root_cert (gateway : VirtualNetworkGateway)
    (cert_name : String) : Except PyErr VirtualNetworkGateway :=
  match gateway.vpn_client_configuration with
  | none => .error .cliError
  | some config =>
    match config.vpn_client_root_certificates with
    | none => .error .typeError
    | some certs =>
      match certs.find? (fun c => c.name == cert_name) with
      | none => .error .cliError
      | some cert =>
        .ok { gateway with
          vpn_client_configuration := some
            { config with vpn_client_root_certificates := some (certs.erase cert) } }

/-- SubResource model: a reference wrapper around a resource id. -/
structure SubResource where
  id : String
deriving DecidableEq

/-- ApplicationGatewayPathRule model. -/
structure ApplicationGatewayPathRule where
  name : String
  paths : List String
  backend_address_pool : SubResource
  backend_http_settings : SubResource
deriving DecidableEq

/-- ApplicationGatewayUrlPathMap model. -/
structure ApplicationGatewayUrlPathMap where
  name : String
  default_backend_address_pool : SubResource
  default_backend_http_settings : SubResource
  path_rules : List ApplicationGatewayPathRule
deriving DecidableEq

/-- ApplicationGatewayHttpListener model with the fields
create_ag_http_listener constructs. -/
structure ApplicationGatewayHttpListener where
  name : String
  frontend_ip_configuration : SubResource
  frontend_port : SubResource
  host_name : Option String
  require_server_name_indication : Option Bool
  protocol : String
  ssl_certificate : Option SubResource
deriving DecidableEq

/-- ApplicationGateway model with the collections the verified commands touch. -/
structure ApplicationGateway where
  url_path_maps : List ApplicationGatewayUrlPathMap := []
  http_listeners : List ApplicationGatewayHttpListener := []
deriving DecidableEq

/-- The ApplicationGatewayPathRule built by create_ag_url_path_map_rule from the
found url_path_map and the arguments (custom.py lines 383-389): falsy
address_pool or http_settings arguments fall back to the map defaults. -/
def newPathRule (url_map : ApplicationGatewayUrlPathMap) (item_name : String)
    (paths : List String) (address_pool http_settings : Option String) :
    ApplicationGatewayPathRule :=
  { name := item_name
    paths := paths
    backend_address_pool :=
      if pyTruthy address_pool then SubResource.mk (address_pool.getD "")
      else SubResource.mk url_map.default_backend_address_pool.id
    backend_http_settings :=
      if pyTruthy http_settings then SubResource.mk (http_settings.getD "")
      else SubResource.mk url_map.default_backend_http_settings.id }

/-- create_ag_url_path_map_rule, custom.py lines 374-392: look up the url path
map by name (CLIError when absent), build the new path rule with defaults from
the found map, and upsert it into that map's path_rules. -/
def create_ag_url_path_map_rule (ag : ApplicationGateway)
    (url_path_map_name item_name : String) (paths : List String)
    (address_pool http_settings : Option String) :
    Except PyErr ApplicationGateway :=
  match ag.url_path_maps.find? (fun x => x.name == url_path_map_name) with
  | none => .error .cliError
  | some url_map =>
    let new_rule := newPathRule url_map item_name paths address_pool http_settings
    let upd := fun m : ApplicationGatewayUrlPathMap =>
      { m with path_rules := _upsert m.path_rules new_rule (fun r => some r.name) item_name }
    .ok { ag with url_path_maps := updateFirst (fun x => x.name == url_path_map_name) upd ag.url_path_maps }

/-- C1 counterexample: with two entries sharing the key, _upsert removes only
the first; the second pre-existing entry with that key survives, so the claim
that no previously existing entry with the key remains is false. -/
theorem upsert_counterexample :
    _upsert [VpnClientRootCertificate.mk "a" "1", VpnClientRootCertificate.mk "a" "2"]
      (VpnClientRootCertificate.mk "a" "3") (fun c => some c.name) "a"
      = [VpnClientRootCertificate.mk "a" "2", VpnClientRootCertificate.mk "a" "3"]
    ∧ (VpnClientRootCertificate.mk "a" "2").name = "a"
    ∧ VpnClientRootCertificate.mk "a" "2" ≠ VpnClientRootCertificate.mk "a" "3" := by
  refine ⟨by decide, rfl, by decide⟩

/-- C1 (amended): _upsert always puts obj in the collection; provided at most
one existing entry shared the key, no previously existing entry with the key
survives except possibly obj itself; and when no entry shared the key the
result is exactly the old collection with obj appended. -/
theorem upsert_amended {α : Type} [DecidableEq α] (collection : List α) (obj : α)
    (key : α → Option String) (kv : String)
    (huniq : collection.countP (fun x => key x == some kv) ≤ 1) :
    obj ∈ _upsert collection obj key kv
    ∧ (∀ x ∈ collection, key x = some kv → x ∉ _upsert collection obj key kv ∨ x = obj)
    ∧ ((∀ x ∈ collection, key x ≠ some kv) → _upsert collection obj key kv = collection ++ [obj]) := by
  unfold _upsert
  cases hfind : collection.find? (fun x => key x == some kv) with
  | none =>
    refine ⟨by simp, ?_, fun _ => rfl⟩
    intro x hx hkey
    have hnot := List.find?_eq_none.mp hfind x hx
    simp [hkey] at hnot
  | some m =>
    have hm_mem : m ∈ collection := List.mem_of_find?_eq_some hfind
    have hm_key : (key m == some kv) = true := by simpa using List.find?_some hfind
    have hF : (collection.filter (fun x => key x == some kv)).length ≤ 1 := by
      rw [← List.countP_eq_length_filter]; exact huniq
    have hmF : m ∈ collection.filter (fun x => key x == some kv) :=
      List.mem_filter.mpr ⟨hm_mem, hm_key⟩
    have hlen1 : (collection.filter (fun x => key x == some kv)).length = 1 := by
      have : 0 < (collection.filter (fun x => key x == some kv)).length :=
        List.length_pos.mpr (List.ne_nil_of_mem hmF)
      omega
    obtain ⟨a, ha⟩ := List.length_eq_one.mp hlen1
    have ham : m = a := by
      rw [ha] at hmF; simpa using hmF
    refine ⟨by simp, ?_, ?_⟩
    · intro x hx hkey
      by_cases hxobj : x = obj
      · exact Or.inr hxobj
      · refine Or.inl ?_
        have hxF : x ∈ collection.filter (fun x => key x == some kv) :=
          List.mem_filter.mpr ⟨hx, by simp [hkey]⟩
        have hxm : x = m := by
          rw [ha, ← ham] at hxF; simpa using hxF
        have hcount : collection.count m = 1 := by
          have h1 : (collection.filter (fun x => key x == some kv)).count m = collection.count m :=
            List.count_filter hm_key
          rw [ha, ← ham] at h1
          simpa using h1.symm
        have herase : m ∉ collection.erase m := by
          rw [← List.count_eq_zero, List.count_erase_self, hcount]
        subst hxm
        simp only [List.mem_append, List.mem_singleton]
        push_neg
        exact ⟨herase, hxobj⟩
    · intro hnone
      exact absurd (by simpa using hm_key) (hnone m hm_mem)

/-- C1 witness: a concrete append-only upsert obtained from upsert_amended. -/
theorem upsert_amended_witness :
    (VpnClientRootCertificate.mk "b" "2") ∈
      _upsert [VpnClientRootCertificate.mk "a" "1"] (VpnClientRootCertificate.mk "b" "2")
        (fun c => some c.name) "b"
    ∧ _upsert [VpnClientRootCertificate.mk "a" "1"] (VpnClientRootCertificate.mk "b" "2")
        (fun c => some c.name) "b"
      = [VpnClientRootCertificate.mk "a" "1", VpnClientRootCertificate.mk "b" "2"] := by
  have h := upsert_amended [VpnClientRootCertificate.mk "a" "1"]
    (VpnClientRootCertificate.mk "b" "2") (fun c => some c.name) "b" (by decide)
  exact ⟨h.1, h.2.2 (by decide)⟩

/-- C3 counterexample: a gateway whose configuration exists but whose root
certificate list is None holds no certificate named c, yet the lookup raises an
uncaught TypeError instead of the CLIError the claim promises. -/
theorem root_cert_lookup_counterexample :
    delete_vnet_gateway_root_cert ⟨some ⟨none⟩⟩ "c" = .error .typeError
    ∧ PyErr.typeError ≠ PyErr.cliError := by
  exact ⟨rfl, by decide⟩

/-- The gateway state delete_vnet_gateway_root_cert resubmits on success: the
found certificate erased from the configuration's collection. -/
def gatewayWithoutCert (g : VirtualNetworkGateway) (cfg : VpnClientConfiguration)
    (certs : List VpnClientRootCertificate) (cert : VpnClientRootCertificate) :
    VirtualNetworkGateway :=
  { g with vpn_client_configuration := some { cfg with vpn_client_root_certificates := some (certs.erase cert) } }

/-- The application gateway state create_ag_url_path_map_rule resubmits on
success: the new rule upserted into the first url path map of the given name. -/
def agWithRuleUpserted (ag : ApplicationGateway) (map_name : String)
    (rule : ApplicationGatewayPathRule) (item_name : String) : ApplicationGateway :=
  { ag with url_path_maps := updateFirst (fun x => x.name == map_name) (fun m => { m with path_rules := _upsert m.path_rules rule (fun r => some r.name) item_name }) ag.url_path_maps }

/-- C3 (amended): delete_vnet_gateway_root_cert raises CLIError exactly when
the configuration is missing or the certificate list is present without a
certificate of the given name (a present configuration with a None list raises
TypeError instead); on success the first matching certificate is removed.
create_ag_url_path_map_rule raises CLIError exactly when no URL path map has
the given name, and on success upserts the new rule into the first matching
map, with defaults drawn from it. -/
theorem named_lookup_amended (g : VirtualNetworkGateway) (n : String)
    (ag : ApplicationGateway) (map_name item_name : String) (paths : List String)
    (address_pool http_settings : Option String) :
    (delete_vnet_gateway_root_cert g n = .error .cliError ↔
      g.vpn_client_configuration = none ∨
        (∃ cfg certs, g.vpn_client_configuration = some cfg ∧
          cfg.vpn_client_root_certificates = some certs ∧ ∀ c ∈ certs, c.name ≠ n))
    ∧ (∀ cfg certs cert, g.vpn_client_configuration = some cfg →
        cfg.vpn_client_root_certificates = some certs →
        certs.find? (fun c => c.name == n) = some cert →
        delete_vnet_gateway_root_cert g n = .ok (gatewayWithoutCert g cfg certs cert))
    ∧ (create_ag_url_path_map_rule ag map_name item_name paths address_pool http_settings
        = .error .cliError ↔ ∀ m ∈ ag.url_path_maps, m.name ≠ map_name)
    ∧ (∀ url_map, ag.url_path_maps.find? (fun x => x.name == map_name) = some url_map →
        create_ag_url_path_map_rule ag map_name item_name paths address_pool http_settings
          = .ok (agWithRuleUpserted ag map_name
              (newPathRule url_map item_name paths address_pool http_settings) item_name)) := by
  refine ⟨?_, ?_, ?_, ?_⟩
  · cases hcfg : g.vpn_client_configuration with
    | none => simp [delete_vnet_gateway_root_cert, hcfg]
    | some cfg =>
      cases hcerts : cfg.vpn_client_root_certificates with
      | none => simp [delete_vnet_gateway_root_cert, hcfg, hcerts]
      | some certs =>
        cases hfind : certs.find? (fun c => c.name == n) with
        | none =>
          simp only [delete_vnet_gateway_root_cert, hcfg, hcerts, hfind]
          simp only [true_iff, iff_true]
          refine Or.inr ⟨cfg, certs, rfl, hcerts, ?_⟩
          intro c hc
          have := List.find?_eq_none.mp hfind c hc
          simpa using this
        | some cert =>
          simp only [delete_vnet_gateway_root_cert, hcfg, hcerts, hfind]
          constructor
          · intro h; exact absurd h (by simp)
          · rintro (h | ⟨cfg2, certs2, hc2, hl2, hall⟩)
            · exact absurd h (by simp)
            · have hcfg2 : cfg2 = cfg := (Option.some_inj.mp hc2).symm
              subst hcfg2
              have hcerts2 : certs2 = certs := by rw [hcerts] at hl2; exact (Option.some_inj.mp hl2).symm
              subst hcerts2
              have hnm : cert.name = n := by simpa using List.find?_some hfind
              exact absurd hnm (hall cert (List.mem_of_find?_eq_some hfind))
  · intro cfg certs cert hcfg hcerts hfind
    simp [delete_vnet_gateway_root_cert, hcfg, hcerts, hfind, gatewayWithoutCert]
  · cases hfind : ag.url_path_maps.find? (fun x => x.name == map_name) with
    | none =>
      simp only [create_ag_url_path_map_rule, hfind]
      simp only [true_iff]
      intro m hm
      have := List.find?_eq_none.mp hfind m hm
      simpa using this
    | some url_map =>
      simp only [create_ag_url_path_map_rule, hfind]
      constructor
      · intro h; exact absurd h (by simp)
      · intro hall
        have hnm : url_map.name = map_name := by simpa using List.find?_some hfind
        exact absurd hnm (hall url_map (List.mem_of_find?_eq_some hfind))
  · intro url_map hfind
    simp [create_ag_url_path_map_rule, hfind, agWithRuleUpserted]

/-- C3 witness: concrete successful removal and rule creation via
named_lookup_amended. -/
theorem named_lookup_amended_witness :
    delete_vnet_gateway_root_cert ⟨some ⟨some [⟨"c", "d"⟩]⟩⟩ "c" = .ok ⟨some ⟨some []⟩⟩
    ∧ create_ag_url_path_map_rule ⟨[⟨"m", ⟨"p"⟩, ⟨"s"⟩, []⟩], []⟩ "m" "r" ["/x"] none none
      = .ok ⟨[⟨"m", ⟨"p"⟩, ⟨"s"⟩, [⟨"r", ["/x"], ⟨"p"⟩, ⟨"s"⟩⟩]⟩], []⟩ := by
  have h := named_lookup_amended ⟨some ⟨some [⟨"c", "d"⟩]⟩⟩ "c"
    ⟨[⟨"m", ⟨"p"⟩, ⟨"s"⟩, []⟩], []⟩ "m" "r" ["/x"] none none
  constructor
  · rw [h.2.1 ⟨some [⟨"c", "d"⟩]⟩ [⟨"c", "d"⟩] ⟨"c", "d"⟩ rfl rfl (by decide)]
    rfl
  · rw [h.2.2.2 ⟨"m", ⟨"p"⟩, ⟨"s"⟩, []⟩ (by decide)]
    rfl

/-- Helper: when a collection holds at most one key match and find? locates m,
the key-filtered collection is exactly [m] and m occurs exactly once. -/
theorem filter_key_single {α : Type} [DecidableEq α] (l : List α) (p : α → Bool) (m : α)
    (hfind : l.find? p = some m) (huniq : l.countP p ≤ 1) :
    l.filter p = [m] ∧ l.count m = 1 := by
  have hm_mem := List.mem_of_find?_eq_some hfind
  have hm_p : p m = true := by simpa using List.find?_some hfind
  have hF : (l.filter p).length ≤ 1 := by
    rw [← List.countP_eq_length_filter]; exact huniq
  have hmF : m ∈ l.filter p := List.mem_filter.mpr ⟨hm_mem, hm_p⟩
  have hlen1 : (l.filter p).length = 1 := by
    have := List.length_pos.mpr (List.ne_nil_of_mem hmF); omega
  obtain ⟨a, ha⟩ := List.length_eq_one.mp hlen1
  have ham : m = a := by rw [ha] at hmF; simpa using hmF
  subst ham
  refine ⟨ha, ?_⟩
  have h1 : (l.filter p).count m = l.count m := List.count_filter hm_p
  rw [ha] at h1
  simpa using h1.symm

/-- Helper: after upserting an object whose key equals the key value into a
collection with at most one existing match, the key-filtered result is exactly
the new object. -/
theorem upsert_filter_key {α : Type} [DecidableEq α] (l : List α) (obj : α)
    (key : α → Option String) (kv : String) (hobj : key obj = some kv)
    (huniq : l.countP (fun x => key x == some kv) ≤ 1) :
    (_upsert l obj key kv).filter (fun x => key x == some kv) = [obj] := by
  unfold _upsert
  cases hfind : l.find? (fun x => key x == some kv) with
  | none =>
    rw [List.filter_append]
    have h1 : l.filter (fun x => key x == some kv) = [] := by
      rw [List.filter_eq_nil_iff]
      intro a ha
      have := List.find?_eq_none.mp hfind a ha
      simpa using this
    rw [h1]
    simp [hobj]
  | some m =>
    obtain ⟨hF, hcount⟩ := filter_key_single l (fun x => key x == some kv) m hfind huniq
    have herase : m ∉ l.erase m := by
      rw [← List.count_eq_zero, List.count_erase_self, hcount]
    rw [List.filter_append]
    have h2 : (l.erase m).filter (fun x => key x == some kv) = [] := by
      rw [List.filter_eq_nil_iff]
      intro a ha hpa
      have haL : a ∈ l := List.mem_of_mem_erase ha
      have haF : a ∈ l.filter (fun x => key x == some kv) := List.mem_filter.mpr ⟨haL, hpa⟩
      rw [hF] at haF
      have : a = m := by simpa using haF
      subst this
      exact herase ha
    rw [h2]
    simp [hobj]

/-- The ApplicationGatewayHttpListener built by create_ag_http_listener
(custom.py lines 183-190): protocol and SNI depend on Python truthiness of
ssl_cert and host_name. -/
def newHttpListener (item_name frontend_ip frontend_port : String)
    (host_name ssl_cert : Option String) : ApplicationGatewayHttpListener :=
  { name := item_name
    frontend_ip_configuration := SubResource.mk frontend_ip
    frontend_port := SubResource.mk frontend_port
    host_name := host_name
    require_server_name_indication :=
      if pyTruthy ssl_cert && pyTruthy host_name then some true else none
    protocol := if pyTruthy ssl_cert then "https" else "http"
    ssl_certificate := if pyTruthy ssl_cert then some (SubResource.mk (ssl_cert.getD "")) else none }

/-- create_ag_http_listener, custom.py lines 177-193: build the listener and
upsert it into the gateway's http_listeners collection keyed by name. -/
def create_ag_http_listener (ag : ApplicationGateway) (item_name : String)
    (frontend_ip frontend_port : String) (host_name ssl_cert : Option String) :
    ApplicationGateway :=
  let new_listener := newHttpListener item_name frontend_ip frontend_port host_name ssl_cert
  { ag with http_listeners := _upsert ag.http_listeners new_listener (fun x => some x.name) item_name }

/-- FrontendIPConfiguration model (only the name attribute is consulted by the
verified commands). -/
structure FrontendIPConfiguration where
  name : String
deriving DecidableEq

/-- BackendAddressPool model. -/
structure BackendAddressPool where
  name : String
deriving DecidableEq

/-- Probe model. -/
structure Probe where
  name : String
deriving DecidableEq

/-- LoadBalancingRule model with the fields create_lb_rule constructs. -/
structure LoadBalancingRule where
  name : String
  protocol : String
  frontend_port : Int
  backend_port : Int
  frontend_ip_configuration : FrontendIPConfiguration
  backend_address_pool : BackendAddressPool
  probe : Option Probe
  load_distribution : String
  enable_floating_ip : Bool
  idle_timeout_in_minutes : Option Int
deriving DecidableEq

/-- LoadBalancer model with the collections create_lb_rule touches. -/
structure LoadBalancer where
  frontend_ip_configurations : List FrontendIPConfiguration := []
  backend_address_pools : List BackendAddressPool := []
  probes : List Probe := []
  load_balancing_rules : List LoadBalancingRule := []
deriving DecidableEq

/-- Modelled from the spec: _get_property lives in
azure.cli.command_modules.network._util, which is not among the sources. The
spec describes it as the property getter that looks up a named element in a
collection by attribute match, raising a client error when absent. -/
def _get_property {α : Type} (collection : List α) (name_of : α → String) (n : String) :
    Except PyErr α :=
  match collection.find? (fun x => name_of x == n) with
  | some x => .ok x
  | none => .error .cliError

/-- The LoadBalancingRule built by create_lb_rule (custom.py lines 567-579). -/
def newLoadBalancingRule (item_name protocol : String) (frontend_port backend_port : Int)
    (fip : FrontendIPConfiguration) (pool : BackendAddressPool) (prb : Option Probe)
    (load_distribution floating_ip : String) (idle_timeout : Option Int) : LoadBalancingRule :=
  { name := item_name
    protocol := protocol
    frontend_port := frontend_port
    backend_port := backend_port
    frontend_ip_configuration := fip
    backend_address_pool := pool
    probe := prb
    load_distribution := load_distribution
    enable_floating_ip := floating_ip == "true"
    idle_timeout_in_minutes := idle_timeout }

/-- The probe argument of the rule built by create_lb_rule: looked up by name
when probe_name is truthy, None otherwise (custom.py line 576). -/
def resolveProbe (lb : LoadBalancer) (probe_name : Option String) :
    Except PyErr (Option Probe) :=
  if pyTruthy probe_name then
    Except.map some (_get_property lb.probes (fun x => x.name) (probe_name.getD ""))
  else pure none

/-- create_lb_rule, custom.py lines 560-582: resolve the frontend IP
configuration, backend pool and (when the probe name is truthy) the probe by
name, build the rule, and upsert it into load_balancing_rules keyed by name. -/
def create_lb_rule (lb : LoadBalancer) (item_name protocol : String)
    (frontend_port backend_port : Int) (frontend_ip_name backend_address_pool_name : String)
    (probe_name : Option String) (load_distribution floating_ip : String)
    (idle_timeout : Option Int) : Except PyErr LoadBalancer := do
  let fip ← _get_property lb.frontend_ip_configurations (fun x => x.name) frontend_ip_name
  let pool ← _get_property lb.backend_address_pools (fun x => x.name) backend_address_pool_name
  let prb ← resolveProbe lb probe_name
  let new_rule := newLoadBalancingRule item_name protocol frontend_port backend_port fip pool
    prb load_distribution floating_ip idle_timeout
  pure { lb with load_balancing_rules := _upsert lb.load_balancing_rules new_rule (fun x => some x.name) item_name }

/-- C6: assuming the parent collection held at most one entry per name before
the call, after create_ag_http_listener the listener collection holds exactly
one entry named item_name, namely the newly constructed listener; and whenever
create_lb_rule succeeds, the load-balancing-rule collection holds exactly one
entry named item_name, namely the rule built from the resolved frontend IP
configuration, backend pool and probe. Both go through the same _upsert. -/
theorem create_commands_unique_name (ag : ApplicationGateway) (lb : LoadBalancer)
    (item_name frontend_ip frontend_port : String) (host_name ssl_cert : Option String)
    (rule_name protocol : String) (fport bport : Int)
    (frontend_ip_name backend_address_pool_name : String) (probe_name : Option String)
    (load_distribution floating_ip : String) (idle_timeout : Option Int)
    (hag : ag.http_listeners.countP (fun x => x.name == item_name) ≤ 1)
    (hlb : lb.load_balancing_rules.countP (fun x => x.name == rule_name) ≤ 1) :
    ((create_ag_http_listener ag item_name frontend_ip frontend_port host_name ssl_cert).http_listeners.filter
        (fun x => x.name == item_name)
      = [newHttpListener item_name frontend_ip frontend_port host_name ssl_cert])
    ∧ (∀ lb2, create_lb_rule lb rule_name protocol fport bport frontend_ip_name
          backend_address_pool_name probe_name load_distribution floating_ip idle_timeout
          = .ok lb2 →
        ∃ fip pool prb,
          _get_property lb.frontend_ip_configurations (fun x => x.name) frontend_ip_name = .ok fip
          ∧ _get_property lb.backend_address_pools (fun x => x.name) backend_address_pool_name = .ok pool
          ∧ lb2.load_balancing_rules.filter (fun x => x.name == rule_name)
            = [newLoadBalancingRule rule_name protocol fport bport fip pool prb load_distribution floating_ip idle_timeout]) := by
  constructor
  · show ((_upsert ag.http_listeners (newHttpListener item_name frontend_ip frontend_port host_name ssl_cert) (fun x => some x.name) item_name).filter (fun x => x.name == item_name)) = _
    exact upsert_filter_key ag.http_listeners _ (fun x => some x.name) item_name rfl hag
  · intro lb2 h
    unfold create_lb_rule at h
    cases hfip : _get_property lb.frontend_ip_configurations (fun x => x.name) frontend_ip_name with
    | error e => rw [hfip] at h; simp [Bind.bind, Except.bind] at h
    | ok fip =>
    rw [hfip] at h
    cases hpool : _get_property lb.backend_address_pools (fun x => x.name) backend_address_pool_name with
    | error e => rw [hpool] at h; simp [Bind.bind, Except.bind] at h
    | ok pool =>
    rw [hpool] at h
    cases hprb : resolveProbe lb probe_name with
    | error e => rw [hprb] at h; simp [Bind.bind, Except.bind] at h
    | ok prb =>
      rw [hprb] at h
      simp only [Bind.bind, Except.bind, pure, Except.pure] at h
      have hlb2 := (Except.ok.inj h).symm
      subst hlb2
      refine ⟨fip, pool, prb, rfl, rfl, ?_⟩
      exact upsert_filter_key lb.load_balancing_rules _ (fun x => some x.name) rule_name rfl hlb

/-- C6 witness: concrete creations through create_commands_unique_name. -/
theorem create_commands_unique_name_witness :
    ((create_ag_http_listener ⟨[], []⟩ "l" "fi" "fp" none none).http_listeners.filter
        (fun x => x.name == "l") = [newHttpListener "l" "fi" "fp" none none])
    ∧ (∃ fip pool prb,
        _get_property [FrontendIPConfiguration.mk "f"] (fun x => x.name) "f" = .ok fip
        ∧ _get_property [BackendAddressPool.mk "b"] (fun x => x.name) "b" = .ok pool
        ∧ (LoadBalancer.mk [⟨"f"⟩] [⟨"b"⟩] []
            [newLoadBalancingRule "r" "tcp" 80 80 ⟨"f"⟩ ⟨"b"⟩ none "default" "false" none]).load_balancing_rules.filter
            (fun x => x.name == "r")
          = [newLoadBalancingRule "r" "tcp" 80 80 fip pool prb "default" "false" none]) := by
  have h := create_commands_unique_name ⟨[], []⟩ (LoadBalancer.mk [⟨"f"⟩] [⟨"b"⟩] [] [])
    "l" "fi" "fp" none none "r" "tcp" 80 80 "f" "b" none "default" "false" none
    (by decide) (by decide)
  refine ⟨h.1, ?_⟩
  exact h.2 (LoadBalancer.mk [⟨"f"⟩] [⟨"b"⟩] []
    [newLoadBalancingRule "r" "tcp" 80 80 ⟨"f"⟩ ⟨"b"⟩ none "default" "false" none]) rfl

/-- SecurityRule model with the fields update_nsg_rule touches plus the name,
which it must leave alone. The source fields source_address_prefix and
destination_address_prefix are rendered source_address_pfx and
destination_address_pfx. destination_port_range may hold an int in Python; the
update logic is type-agnostic, so String is used uniformly. -/
structure SecurityRule where
  name : String
  protocol : String
  source_address_pfx : String
  destination_address_pfx : String
  access : String
  direction : String
  description : Option String
  source_port_range : String
  destination_port_range : String
  priority : Int
deriving DecidableEq

/-- update_nsg_rule, custom.py lines 795-813: each field is replaced by the
argument when it is not None and kept otherwise; no validation, no raise. The
source parameter named instance is rendered sr (instance is a Lean keyword). -/
def update_nsg_rule (sr : SecurityRule)
    (protocol source_address_pfx destination_address_pfx access direction : Option String)
    (description : Option String)
    (source_port_range destination_port_range : Option String) (priority : Option Int) :
    SecurityRule :=
  { sr with
    protocol := match protocol with | some v => v | none => sr.protocol
    source_address_pfx := match source_address_pfx with | some v => v | none => sr.source_address_pfx
    destination_address_pfx := match destination_address_pfx with | some v => v | none => sr.destination_address_pfx
    access := match access with | some v => v | none => sr.access
    direction := match direction with | some v => v | none => sr.direction
    description := match description with | some v => some v | none => sr.description
    source_port_range := match source_port_range with | some v => v | none => sr.source_port_range
    destination_port_range := match destination_port_range with | some v => v | none => sr.destination_port_range
    priority := match priority with | some v => v | none => sr.priority }

/-- Route model with the fields update_route touches plus the untouched name.
The source field address_prefix is rendered address_pfx. -/
structure Route where
  name : String
  address_pfx : String
  next_hop_type : String
  next_hop_ip_address : Option String
deriving DecidableEq

/-- update_route, custom.py lines 1278-1287: selectively assign the three
fields when their arguments are not None; no validation, no raise. -/
def update_route (r : Route)
    (address_pfx next_hop_type next_hop_ip_address : Option String) : Route :=
  { r with
    address_pfx := match address_pfx with | some v => v | none => r.address_pfx
    next_hop_type := match next_hop_type with | some v => v | none => r.next_hop_type
    next_hop_ip_address := match next_hop_ip_address with | some v => some v | none => r.next_hop_ip_address }

/-- C7: update_nsg_rule and update_route set exactly the fields whose arguments
are not None to those arguments, keep every field whose argument is None, and
leave every other field (the name) unchanged; both are total, so no input
raises. -/
theorem update_commands_frame (sr : SecurityRule) (r : Route)
    (protocol source_address_pfx destination_address_pfx access direction : Option String)
    (description : Option String)
    (source_port_range destination_port_range : Option String) (priority : Option Int)
    (address_pfx next_hop_type next_hop_ip_address : Option String) :
    update_nsg_rule sr protocol source_address_pfx destination_address_pfx access direction
        description source_port_range destination_port_range priority
      = SecurityRule.mk sr.name (protocol.getD sr.protocol)
          (source_address_pfx.getD sr.source_address_pfx)
          (destination_address_pfx.getD sr.destination_address_pfx)
          (access.getD sr.access) (direction.getD sr.direction)
          (description.or sr.description)
          (source_port_range.getD sr.source_port_range)
          (destination_port_range.getD sr.destination_port_range)
          (priority.getD sr.priority)
    ∧ update_route r address_pfx next_hop_type next_hop_ip_address
      = Route.mk r.name (address_pfx.getD r.address_pfx)
          (next_hop_type.getD r.next_hop_type)
          (next_hop_ip_address.or r.next_hop_ip_address) := by
  constructor
  · cases protocol <;> cases source_address_pfx <;> cases destination_address_pfx <;>
      cases access <;> cases direction <;> cases description <;> cases source_port_range <;>
      cases destination_port_range <;> cases priority <;> rfl
  · cases address_pfx <;> cases next_hop_type <;> cases next_hop_ip_address <;> rfl

/-- ExpressRouteCircuitSku model: the SKU tier consulted by the guard (and the
family, carried along). -/
structure ExpressRouteCircuitSku where
  tier : String
  family : String
deriving DecidableEq

/-- An existing peering on the fetched circuit, modelled by the two attributes
create_express_route_peering consults: its name and its vlan_id. -/
structure ExistingPeering where
  name : String
  vlan_id : Int
deriving DecidableEq

/-- ExpressRouteCircuit model: the SKU and the existing peerings. -/
structure ExpressRouteCircuit where
  sku : ExpressRouteCircuitSku
  peerings : List ExistingPeering
deriving DecidableEq

/-- ExpressRouteCircuitPeeringConfig model (Microsoft peering only). -/
structure ExpressRouteCircuitPeeringConfig where
  advertised_public_prefixes : Option (List String)
  customer_asn : Option Int
  routing_registry_name : Option String
deriving DecidableEq

/-- ExpressRouteCircuitPeering model: the request object built by
create_express_route_peering. primary_peer_address_prefix and
secondary_peer_address_prefix are rendered with a pfx suffix. -/
structure ExpressRouteCircuitPeering where
  peering_type : String
  peer_asn : Int
  vlan_id : Int
  primary_peer_address_pfx : String
  secondary_peer_address_pfx : String
  shared_key : Option String
  microsoft_peering_config : Option ExpressRouteCircuitPeeringConfig
deriving DecidableEq

/-- create_express_route_peering, custom.py lines 1172-1221: raise CLIError
when MicrosoftPeering is requested on a Standard-tier circuit, or when any
existing peering already uses the requested vlan_id; otherwise build the
peering (with a Microsoft peering config exactly for MicrosoftPeering) and
submit it. -/
def create_express_route_peering (circuit : ExpressRouteCircuit)
    (peering_type : String) (peer_asn vlan_id : Int) (primary_pfx secondary_pfx : String)
    (shared_key : Option String) (advertised_public_prefixes : Option (List String))
    (customer_asn : Option Int) (routing_registry_name : Option String) :
    Except PyErr ExpressRouteCircuitPeering :=
  if peering_type == "MicrosoftPeering" && circuit.sku.tier == "Standard" then
    .error .cliError
  else
    match circuit.peerings.find? (fun p => p.vlan_id == vlan_id) with
    | some _ => .error .cliError
    | none =>
      let peering_config := if peering_type == "MicrosoftPeering" then
          some (ExpressRouteCircuitPeeringConfig.mk advertised_public_prefixes customer_asn routing_registry_name)
        else none
      .ok (ExpressRouteCircuitPeering.mk peering_type peer_asn vlan_id primary_pfx
        secondary_pfx shared_key peering_config)

/-- C10: create_express_route_peering raises CLIError exactly when the request
is MicrosoftPeering on a Standard-tier circuit or the vlan_id collides with an
existing peering; in every other case the constructed peering is returned for
submission. -/
theorem create_express_route_peering_guard (circuit : ExpressRouteCircuit)
    (peering_type : String) (peer_asn vlan_id : Int) (primary_pfx secondary_pfx : String)
    (shared_key : Option String) (advertised_public_prefixes : Option (List String))
    (customer_asn : Option Int) (routing_registry_name : Option String) :
    (create_express_route_peering circuit peering_type peer_asn vlan_id primary_pfx
        secondary_pfx shared_key advertised_public_prefixes customer_asn routing_registry_name
      = .error .cliError
      ↔ ((peering_type = "MicrosoftPeering" ∧ circuit.sku.tier = "Standard")
          ∨ ∃ p ∈ circuit.peerings, p.vlan_id = vlan_id))
    ∧ (¬((peering_type = "MicrosoftPeering" ∧ circuit.sku.tier = "Standard")
          ∨ ∃ p ∈ circuit.peerings, p.vlan_id = vlan_id) →
        create_express_route_peering circuit peering_type peer_asn vlan_id primary_pfx
            secondary_pfx shared_key advertised_public_prefixes customer_asn routing_registry_name
          = .ok (ExpressRouteCircuitPeering.mk peering_type peer_asn vlan_id primary_pfx
              secondary_pfx shared_key
              (if peering_type == "MicrosoftPeering" then
                some (ExpressRouteCircuitPeeringConfig.mk advertised_public_prefixes customer_asn routing_registry_name)
              else none))) := by
  unfold create_express_route_peering
  by_cases h1 : peering_type = "MicrosoftPeering" ∧ circuit.sku.tier = "Standard"
  · have hb : (peering_type == "MicrosoftPeering" && circuit.sku.tier == "Standard") = true := by
      simp [h1.1, h1.2]
    rw [if_pos hb]
    exact ⟨by simp [h1], fun hn => absurd (Or.inl h1) hn⟩
  · have hb : (peering_type == "MicrosoftPeering" && circuit.sku.tier == "Standard") = false := by
      rcases not_and_or.mp h1 with h | h <;> simp [h]
    rw [if_neg (by simp [hb])]
    cases hfind : circuit.peerings.find? (fun p => p.vlan_id == vlan_id) with
    | some p =>
      have hp_mem := List.mem_of_find?_eq_some hfind
      have hp_vl : p.vlan_id = vlan_id := by simpa using List.find?_some hfind
      refine ⟨by simp; exact Or.inr ⟨p, hp_mem, hp_vl⟩, fun hn => absurd (Or.inr ⟨p, hp_mem, hp_vl⟩) hn⟩
    | none =>
      constructor
      · constructor
        · intro h; exact absurd h (by simp)
        · rintro (h | ⟨p, hp, hv⟩)
          · exact absurd h h1
          · have := List.find?_eq_none.mp hfind p hp
            simp [hv] at this
      · intro _; rfl

/-- C10 witness: a concrete circuit where the guard admits creation, via
create_express_route_peering_guard. -/
theorem create_express_route_peering_guard_witness :
    create_express_route_peering
        (ExpressRouteCircuit.mk (ExpressRouteCircuitSku.mk "Premium" "MeteredData")
          [ExistingPeering.mk "AzurePublicPeering" 100])
        "MicrosoftPeering" 65000 200 "10.0.0.0/30" "10.0.0.4/30" none (some ["1.2.3.0/24"]) none none
      = .ok (ExpressRouteCircuitPeering.mk "MicrosoftPeering" 65000 200 "10.0.0.0/30" "10.0.0.4/30"
          none (some (ExpressRouteCircuitPeeringConfig.mk (some ["1.2.3.0/24"]) none none))) := by
  have h := create_express_route_peering_guard
    (ExpressRouteCircuit.mk (ExpressRouteCircuitSku.mk "Premium" "MeteredData")
      [ExistingPeering.mk "AzurePublicPeering" 100])
    "MicrosoftPeering" 65000 200 "10.0.0.0/30" "10.0.0.4/30" none (some ["1.2.3.0/24"]) none none
  have h2 := h.2 (by
    rintro (⟨h3, h4⟩ | ⟨p, hp, hv⟩)
    · exact absurd h4 (by decide)
    · simp at hp
      rw [hp] at hv
      exact absurd hv (by decide))
  rw [h2]
  rfl

/-- The 255-character chunking loop of add_dns_txt_record (custom.py lines
1684-1688): while more than 255 characters remain, split off the first 255;
finally append the remainder. -/
def txtChunks (l : List Char) : List (List Char) :=
  if _h : 255 < l.length then l.take 255 :: txtChunks (l.drop 255) else [l]
termination_by l.length
decreasing_by simp [List.length_drop]; omega

/-- The record.value computed by add_dns_txt_record (custom.py lines
1678-1691): the CLI string is joined (a no-op for one string), backslashes are
stripped, and the result is chunked. -/
def add_dns_txt_record_value (value : String) : List (List Char) :=
  txtChunks (value.toList.filter (fun c => !(c == '\\')))

/-- txtChunks never returns the empty list of chunks. -/
theorem txtChunks_ne_nil (l : List Char) : txtChunks l ≠ [] := by
  rw [txtChunks]
  split <;> simp

/-- The chunking invariants: concatenation restores the input, every chunk but
the last has exactly 255 characters, and the last has at most 255. -/
theorem txtChunks_spec (l : List Char) :
    (txtChunks l).join = l
    ∧ (∀ c ∈ (txtChunks l).dropLast, c.length = 255)
    ∧ (∀ c ∈ (txtChunks l).getLast?, c.length ≤ 255) := by
  induction l using txtChunks.induct with
  | case1 l h ih =>
    obtain ⟨ih1, ih2, ih3⟩ := ih
    rw [txtChunks, dif_pos h]
    refine ⟨?_, ?_, ?_⟩
    · simp only [List.join_cons, ih1, List.take_append_drop]
    · intro c hc
      rw [List.dropLast_cons_of_ne_nil (txtChunks_ne_nil _)] at hc
      rcases List.mem_cons.mp hc with hc | hc
      · subst hc
        rw [List.length_take]
        omega
      · exact ih2 c hc
    · intro c hc
      obtain ⟨x, xs, hr⟩ : ∃ x xs, txtChunks (l.drop 255) = x :: xs := by
        cases hr : txtChunks (l.drop 255) with
        | nil => exact absurd hr (txtChunks_ne_nil _)
        | cons x xs => exact ⟨x, xs, rfl⟩
      rw [hr] at hc
      apply ih3
      rw [hr]
      simpa using hc
  | case2 l h =>
    rw [txtChunks, dif_neg h]
    refine ⟨by simp, by simp, ?_⟩
    intro c hc
    simp only [List.getLast?_singleton, Option.mem_def, Option.some_inj] at hc
    subst hc
    omega

/-- C9: the chunks computed by add_dns_txt_record concatenate back to the
backslash-stripped text, every chunk except the last is exactly 255 characters
long, the last is at most 255, and therefore the length-preservation assertion
of the source holds. -/
theorem add_dns_txt_record_chunking (value : String) :
    (add_dns_txt_record_value value).join = value.toList.filter (fun c => !(c == '\\'))
    ∧ (∀ c ∈ (add_dns_txt_record_value value).dropLast, c.length = 255)
    ∧ (∀ c ∈ (add_dns_txt_record_value value).getLast?, c.length ≤ 255)
    ∧ (add_dns_txt_record_value value).join.length
      = (value.toList.filter (fun c => !(c == '\\'))).length := by
  obtain ⟨h1, h2, h3⟩ := txtChunks_spec (value.toList.filter (fun c => !(c == '\\')))
  exact ⟨h1, h2, h3, by simp only [add_dns_txt_record_value, h1]⟩

/-- C9 witness: the chunking facts at a concrete input, via
add_dns_txt_record_chunking. -/
theorem add_dns_txt_record_chunking_witness :
    (add_dns_txt_record_value "ab\\c").join = "ab\\c".toList.filter (fun c => !(c == '\\'))
    ∧ (add_dns_txt_record_value "ab\\c").join.length
      = ("ab\\c".toList.filter (fun c => !(c == '\\'))).length := by
  have h := add_dns_txt_record_chunking "ab\\c"
  exact ⟨h.1, h.2.2.2⟩

/-- An atomic Python value held by a DNS record field: an int or a str. -/
inductive PyAtom where
  | int (n : Int)
  | str (s : String)
deriving DecidableEq

/-- A Python value held by a DNS record field: an atom or a list of atoms (the
DNS record classes hold ints, strings, and lists of strings, so nested lists
never occur and every list element is hashable). -/
inductive PyVal where
  | atom (a : PyAtom)
  | list (l : List PyAtom)
deriving DecidableEq

/-- The single-quote character used by Python repr of a string. -/
def quoteChar : Char := Char.ofNat 39

/-- Python repr of an atom, as rendered inside a list display (string escaping
is not modelled; the inputs under verification contain no quotes). -/
def pyReprAtom : PyAtom → String
  | .int n => toString n
  | .str s => String.singleton quoteChar ++ s ++ String.singleton quoteChar

/-- Python str of an atom. -/
def pyStrAtom : PyAtom → String
  | .int n => toString n
  | .str s => s

/-- Python str of a value: atoms render directly, lists as a bracketed
comma-separated repr of their elements. -/
def pyStr : PyVal → String
  | .atom a => pyStrAtom a
  | .list l => "[" ++ String.intercalate ", " (l.map pyReprAtom) ++ "]"

/-- Python str of a possibly-None value. -/
def pyStrOpt : Option PyVal → String
  | none => "None"
  | some v => pyStr v

/-- The elements Python iteration yields from a value: the characters of a
string (as one-character strings), the elements of a list; an int is not
iterable. -/
def pyElems : PyVal → Option (List PyAtom)
  | .atom (.int _) => none
  | .atom (.str s) => some (s.toList.map (fun c => PyAtom.str (String.singleton c)))
  | .list l => some l

/-- Multiset equality of two element lists, as Counter equality computes it. -/
def msetEq (l1 l2 : List PyAtom) : Bool :=
  l1.length == l2.length && l1.all (fun a => l1.count a == l2.count a)

/-- lists_match, custom.py lines 1812-1816: Counter(l1) == Counter(l2), with
any TypeError (a non-iterable operand, in particular an int or Python None)
yielding False. Every element in this model is hashable. -/
def lists_match (v1 v2 : Option PyVal) : Bool :=
  match v1, v2 with
  | some w1, some w2 =>
    match pyElems w1, pyElems w2 with
    | some l1, some l2 => msetEq l1 l2
    | _, _ => false
  | _, _ => false

/-- A DNS record's __dict__: field name to value, where the value may be
Python None. -/
abbrev PyRecordDict : Type := List (String × Option PyVal)

/-- Python d.get(k): some (stored value) when the key is present (the stored
value itself may be None), none when absent (standing for the sentinel or
other default). -/
def dictGet (d : PyRecordDict) (k : String) : Option (Option PyVal) :=
  (d.find? (fun kv => kv.1 == k)).map (fun kv => kv.2)

/-- Python d.get(k, []): the stored value when present, the empty list
otherwise. -/
def dictGetList (d : PyRecordDict) (k : String) : Option PyVal :=
  match dictGet d k with
  | some v => v
  | none => some (PyVal.list [])

/-- dict_matches_filter, custom.py lines 1805-1810: every key of the filter
dict matches, where a key matches when its filter value is None, or the filter
value and the stored value render equal under str (a missing key yields the
never-equal sentinel), or lists_match holds between the filter value and the
stored value (a missing key yields the empty list). -/
def dict_matches_filter (d filter_dict : PyRecordDict) : Bool :=
  filter_dict.all (fun kv =>
    match kv.2 with
    | none => true
    | some fv =>
      (match dictGet d kv.1 with
       | some sv => pyStr fv == pyStrOpt sv
       | none => false)
      || lists_match (some fv) (dictGetList d kv.1))

/-- The outcome of _remove_record: an escaped exception, a record-set delete,
or a create_or_update carrying the surviving records. -/
inductive RemoveOutcome where
  | raised (e : PyErr)
  | deleted
  | updated (records : List PyRecordDict)
deriving DecidableEq

/-- _remove_record with is_list true, custom.py lines 1776-1803: filter the
fetched record list down to the non-matching records; raise CLIError when
nothing matched; when the property was None the filter block is skipped and
len(None) raises TypeError; an emptied record set is deleted unless
keep_empty_record_set, otherwise the update is submitted. -/
def _remove_record (record : PyRecordDict) (record_list : Option (List PyRecordDict))
    (keep_empty_record_set : Bool) : RemoveOutcome :=
  match record_list with
  | none => .raised .typeError
  | some l =>
    if (l.filter (fun r => !(dict_matches_filter r record))).length = l.length then
      .raised .cliError
    else if (l.filter (fun r => !(dict_matches_filter r record))).length = 0
        && !keep_empty_record_set then
      .deleted
    else .updated (l.filter (fun r => !(dict_matches_filter r record)))

/-- The matching rule exactly as the claim words it: every non-None field of
the given record equals the stored record's field when both are rendered as
strings, with list-valued fields compared as multisets (order-insensitive). -/
def claimMatches (d filter_dict : PyRecordDict) : Bool :=
  filter_dict.all (fun kv =>
    match kv.2 with
    | none => true
    | some fv =>
      match fv with
      | .list fl =>
        (match dictGet d kv.1 with
         | some (some (.list sl)) => msetEq fl sl
         | _ => false)
      | _ =>
        (match dictGet d kv.1 with
         | some sv => pyStr fv == pyStrOpt sv
         | none => false))

/-- C8 counterexample: removing an MX record whose exchange is an anagram of
the stored exchange. Under the claim's matching rule nothing matches, so a
CLIError should be raised; the code's Counter comparison treats the anagram
strings as equal, removes the record, and deletes the emptied record set. -/
theorem remove_record_counterexample :
    _remove_record
        [("preference", some (.atom (.int 5))), ("exchange", some (.atom (.str "ba")))]
        (some [[("preference", some (.atom (.int 5))), ("exchange", some (.atom (.str "ab")))]])
        false
      = .deleted
    ∧ claimMatches
        [("preference", some (.atom (.int 5))), ("exchange", some (.atom (.str "ab")))]
        [("preference", some (.atom (.int 5))), ("exchange", some (.atom (.str "ba")))]
      = false
    ∧ RemoveOutcome.deleted ≠ .raised .cliError := by
  refine ⟨by decide, by decide, by decide⟩

/-- C8 (amended): with a present record list, _remove_record raises CLIError
and submits nothing exactly when no stored record matches, where a stored
record matches iff every non-None field of the given record either renders
string-equal to the stored field or compares equal to it as a multiset of
iterated elements (characters for strings, i.e. also anagrams; elements for
lists; never for ints or None); a None record list raises TypeError instead;
and after a successful removal that empties the list, the record set is
deleted rather than updated when keep_empty_record_set is false, and updated
with the surviving records otherwise. -/
theorem remove_record_amended (record : PyRecordDict) (l : List PyRecordDict)
    (keep_empty_record_set : Bool) :
    (_remove_record record (some l) keep_empty_record_set = .raised .cliError
      ↔ ∀ r ∈ l, dict_matches_filter r record = false)
    ∧ _remove_record record none keep_empty_record_set = .raised .typeError
    ∧ ((∃ r ∈ l, dict_matches_filter r record = true) →
        ((l.filter (fun r => !(dict_matches_filter r record)) = [] ∧ keep_empty_record_set = false) →
          _remove_record record (some l) keep_empty_record_set = .deleted)
        ∧ ((l.filter (fun r => !(dict_matches_filter r record)) ≠ [] ∨ keep_empty_record_set = true) →
          _remove_record record (some l) keep_empty_record_set
            = .updated (l.filter (fun r => !(dict_matches_filter r record))))) := by
  have hlen : (l.filter (fun r => !(dict_matches_filter r record))).length = l.length
      ↔ ∀ r ∈ l, dict_matches_filter r record = false := by
    constructor
    · intro h r hr
      by_contra hcon
      have hpr : dict_matches_filter r record = true := by
        cases hdm : dict_matches_filter r record
        · exact absurd hdm hcon
        · rfl
      have : (l.filter (fun r => !(dict_matches_filter r record))).length < l.length := by
        apply List.length_filter_lt_length_iff_exists.mpr
        exact ⟨r, hr, by simp [hpr]⟩
      omega
    · intro h
      have : l.filter (fun r => !(dict_matches_filter r record)) = l := by
        apply List.filter_eq_self.mpr
        intro r hr
        simp [h r hr]
      rw [this]
  have hred : _remove_record record (some l) keep_empty_record_set
      = (if (l.filter (fun r => !(dict_matches_filter r record))).length = l.length then
          RemoveOutcome.raised .cliError
        else if (l.filter (fun r => !(dict_matches_filter r record))).length = 0
            && !keep_empty_record_set then
          RemoveOutcome.deleted
        else RemoveOutcome.updated (l.filter (fun r => !(dict_matches_filter r record)))) := rfl
  refine ⟨?_, rfl, ?_⟩
  · rw [hred]
    by_cases hc : (l.filter (fun r => !(dict_matches_filter r record))).length = l.length
    · rw [if_pos hc]
      simp only [true_iff]
      exact hlen.mp hc
    · rw [if_neg hc]
      constructor
      · intro h
        split at h <;> simp at h
      · intro h
        exact absurd (hlen.mpr h) hc
  · rintro ⟨r, hr, hmatch⟩
    have hc : ¬((l.filter (fun r => !(dict_matches_filter r record))).length = l.length) := by
      intro h
      exact absurd hmatch (by simp [hlen.mp h r hr])
    constructor
    · rintro ⟨hempty, hkeep⟩
      rw [hred, if_neg hc, if_pos (by simp [hempty, hkeep])]
    · intro hrest
      have hcond : ¬(((l.filter (fun r => !(dict_matches_filter r record))).length = 0
          && !keep_empty_record_set) = true) := by
        rcases hrest with hne | hk
        · simp [List.length_eq_zero.not.mpr hne]
        · simp [hk]
      rw [hred, if_neg hc, if_neg hcond]

/-- C8 witness: a concrete exact-match removal that empties and deletes the
record set, and a concrete no-match CLIError, via remove_record_amended. -/
theorem remove_record_amended_witness :
    _remove_record [("exchange", some (.atom (.str "ab")))]
        (some [[("exchange", some (.atom (.str "ab")))]]) false = .deleted
    ∧ _remove_record [("exchange", some (.atom (.str "zz")))]
        (some [[("exchange", some (.atom (.str "ab")))]]) false = .raised .cliError := by
  constructor
  · exact ((remove_record_amended [("exchange", some (.atom (.str "ab")))]
      [[("exchange", some (.atom (.str "ab")))]] false).2.2
      ⟨_, List.mem_singleton.mpr rfl, by decide⟩).1 ⟨by decide, rfl⟩
  · exact (remove_record_amended [("exchange", some (.atom (.str "zz")))]
      [[("exchange", some (.atom (.str "ab")))]] false).1.mpr (by decide)

/-- ARecord model (azure.mgmt.dns.models). -/
structure ARecord where
  ipv4_address : String
deriving DecidableEq

/-- AaaaRecord model. -/
structure AaaaRecord where
  ipv6_address : String
deriving DecidableEq

/-- CnameRecord model. -/
structure CnameRecord where
  cname : String
deriving DecidableEq

/-- MxRecord model. -/
structure MxRecord where
  preference : Int
  exchange : String
deriving DecidableEq

/-- NsRecord model. -/
structure NsRecord where
  nsdname : String
deriving DecidableEq

/-- PtrRecord model. -/
structure PtrRecord where
  ptrdname : String
deriving DecidableEq

/-- SoaRecord model. -/
structure SoaRecord where
  host : String
  email : String
  serial_number : Int
  refresh_time : Int
  retry_time : Int
  expire_time : Int
  minimum_ttl : Int
deriving DecidableEq

/-- SrvRecord model. -/
structure SrvRecord where
  priority : Int
  weight : Int
  port : Int
  target : String
deriving DecidableEq

/-- TxtRecord model: a list of strings. -/
structure TxtRecord where
  value : List String
deriving DecidableEq

/-- RecordSet model: name, type string, ttl, and the nine per-type record
properties, None when the service has not populated them. -/
structure RecordSet where
  name : String
  type : String
  ttl : Int
  arecords : Option (List ARecord) := none
  aaaa_records : Option (List AaaaRecord) := none
  cname_record : Option CnameRecord := none
  mx_records : Option (List MxRecord) := none
  ns_records : Option (List NsRecord) := none
  ptr_records : Option (List PtrRecord) := none
  soa_record : Option SoaRecord := none
  srv_records : Option (List SrvRecord) := none
  txt_records : Option (List TxtRecord) := none
deriving DecidableEq

/-- Python str.lower, written over the character list so that kernel
evaluation can compute it (String.toLower itself does not reduce). -/
def lowerString (s : String) : String :=
  String.mk (s.data.map Char.toLower)

/-- _type_to_property_name, custom.py lines 1430-1444: the RecordSet property
for a record type; an unknown type raises KeyError, rendered none. -/
def _type_to_property_name (key : String) : Option String :=
  match lowerString key with
  | "a" => some "arecords"
  | "aaaa" => some "aaaa_records"
  | "cname" => some "cname_record"
  | "mx" => some "mx_records"
  | "ns" => some "ns_records"
  | "ptr" => some "ptr_records"
  | "soa" => some "soa_record"
  | "spf" => some "txt_records"
  | "srv" => some "srv_records"
  | "txt" => some "txt_records"
  | _ => none

/-- A value in an exported or parsed record field dictionary: int, str, or (as
parse_zone_file may present txt data) a list of strings. -/
inductive ZVal where
  | int (n : Int)
  | str (s : String)
  | strList (l : List String)
deriving DecidableEq

/-- One record's field dictionary in the nested zone object. -/
abbrev ZoneEntry := List (String × ZVal)

/-- The record portion of the nested zone object: per record-set name, per
record type, the list of field dictionaries (ordered dicts as assoc lists). -/
abbrev ZoneRecords := List (String × List (String × List ZoneEntry))

/-- Intermediate decidability instance, registered to keep the instance search
for the nested zone dictionary small. -/
instance zoneTypeMapDecEq : DecidableEq (List (String × List ZoneEntry)) :=
  inferInstance

/-- Intermediate decidability instance for one name cell of the dictionary. -/
instance zoneTypeCellDecEq : DecidableEq (String × List (String × List ZoneEntry)) :=
  inferInstance

/-- Decidable equality of the nested zone dictionary. -/
instance zoneRecordsDecEq : DecidableEq ZoneRecords :=
  inferInstance

/-- Python s.rstrip of the dot character: remove every trailing dot. -/
def rstripDot (s : String) : String :=
  String.mk ((s.toList.reverse.dropWhile (fun c => c == '.')).reverse)

/-- record_set.type.rsplit on slash with maxsplit 1, index 1, lowered
(custom.py line 1461): the part after the last slash; with no slash the
single-element rsplit makes index 1 raise IndexError. -/
def typeSuffixLower (t : String) : Except PyErr String :=
  if t.data.contains '/' then
    .ok (lowerString (String.mk ((t.data.reverse.takeWhile (fun c => !(c == '/'))).reverse)))
  else .error .indexError

/-- Ordered-dict lookup in an assoc list. -/
def odGet {β : Type} (m : List (String × β)) (k : String) : Option β :=
  (m.find? (fun kv => kv.1 == k)).map (fun kv => kv.2)

/-- Ordered-dict update: replace the value at the first occurrence of the key,
or append the binding at the end (Python dict insertion order). -/
def odSet {β : Type} (m : List (String × β)) (k : String) (f : Option β → β) :
    List (String × β) :=
  match m.find? (fun kv => kv.1 == k) with
  | some _ => updateFirst (fun kv => kv.1 == k) (fun kv => (kv.1, f (some kv.2))) m
  | none => m ++ [(k, f none)]

/-- The field dictionaries export_zone builds for one record set of resolved
lower-case type rtype (custom.py lines 1463-1509): one dict per record, each
holding the record set's ttl and the type-specific fields; an empty result
stands for falsy record data, which the source skips. A record set of type
spf matches no field branch, so only the ttl is emitted. -/
def exportRecordData (rs : RecordSet) (rtype : String) : List ZoneEntry :=
  match rtype with
  | "a" =>
    (rs.arecords.getD []).map (fun r => [("ttl", ZVal.int rs.ttl), ("ip", ZVal.str r.ipv4_address)])
  | "aaaa" =>
    (rs.aaaa_records.getD []).map (fun r => [("ttl", ZVal.int rs.ttl), ("ip", ZVal.str r.ipv6_address)])
  | "cname" =>
    match rs.cname_record with
    | some r => [[("ttl", ZVal.int rs.ttl), ("alias", ZVal.str r.cname)]]
    | none => []
  | "mx" =>
    (rs.mx_records.getD []).map (fun r =>
      [("ttl", ZVal.int rs.ttl), ("preference", ZVal.int r.preference), ("host", ZVal.str r.exchange)])
  | "ns" =>
    (rs.ns_records.getD []).map (fun r => [("ttl", ZVal.int rs.ttl), ("host", ZVal.str r.nsdname)])
  | "ptr" =>
    (rs.ptr_records.getD []).map (fun r => [("ttl", ZVal.int rs.ttl), ("host", ZVal.str r.ptrdname)])
  | "soa" =>
    match rs.soa_record with
    | some r => [[("ttl", ZVal.int rs.ttl),
        ("mname", ZVal.str (rstripDot r.host ++ ".")),
        ("rname", ZVal.str (rstripDot r.email ++ ".")),
        ("serial", ZVal.int r.serial_number), ("refresh", ZVal.int r.refresh_time),
        ("retry", ZVal.int r.retry_time), ("expire", ZVal.int r.expire_time),
        ("minimum", ZVal.int r.minimum_ttl)]]
    | none => []
  | "srv" =>
    (rs.srv_records.getD []).map (fun r =>
      [("ttl", ZVal.int rs.ttl), ("priority", ZVal.int r.priority), ("weight", ZVal.int r.weight),
        ("port", ZVal.int r.port), ("target", ZVal.str r.target)])
  | "txt" =>
    (rs.txt_records.getD []).map (fun r =>
      [("ttl", ZVal.int rs.ttl), ("txt", ZVal.str (String.intercalate " " r.value))])
  | "spf" =>
    (rs.txt_records.getD []).map (fun _ => [("ttl", ZVal.int rs.ttl)])
  | _ => []

/-- The soa minimum ttl of a record set, when it carries an soa record. -/
def soaMinimum (rs : RecordSet) : Option Int :=
  rs.soa_record.map (fun r => r.minimum_ttl)

/-- A value held by the single zone_obj dictionary of export_zone: the
directive entries are strings, the $ttl entry an int, and each record-set
name holds the per-type dictionary. -/
inductive ZDirVal where
  | str (s : String)
  | int (n : Int)
  | dict (m : List (String × List ZoneEntry))
deriving DecidableEq

/-- The export_zone output (custom.py lines 1453-1458): one ordered dict
whose initial keys are the directive entries, later extended in place by the
record-set loop. Record-set names share this key namespace with the
directives. -/
abbrev ZoneObj := List (String × ZDirVal)

/-- The initial zone_obj dict (custom.py lines 1453-1458), in literal key
order. The datetime value is the wall-clock strftime string, taken as an
input of the embedding. -/
def zoneInit (resource_group_name zone_name datetime : String) : ZoneObj :=
  [("$origin", ZDirVal.str (rstripDot zone_name ++ ".")),
   ("resource-group", ZDirVal.str resource_group_name),
   ("zone-name", ZDirVal.str (rstripDot zone_name)),
   ("datetime", ZDirVal.str datetime)]

/-- The record-set entries of the zone_obj dict: the keys holding a per-type
dictionary, in order. -/
def zoneRecordsOf (z : ZoneObj) : ZoneRecords :=
  z.filterMap (fun kv => match kv.2 with | ZDirVal.dict m => some (kv.1, m) | _ => none)

/-- One step of export_zone's record-set loop (custom.py lines 1460-1510) on
the single zone_obj dict: resolve the lowered type suffix, look up the
property name (KeyError when unknown), skip falsy record data. A fresh
record-set name gains an empty dict which the record loop then fills, so the
name key is appended holding the type key and field dictionaries; a name
already holding a dict (a repeated name) has its type list extended in
place. A name already holding a directive string, or the $ttl int, makes the
record loop raise an uncaught TypeError: for an int value the membership
test record_type not in zone_obj[name] raises, and for a str value the
following item assignment (or string indexing) on line 1480 or 1510 raises;
both abort export_zone, so they are collapsed into one typeError outcome.
An soa record finally item-assigns $ttl to its minimum ttl, updating the key
in place or appending it. -/
def exportStep (z : ZoneObj) (rs : RecordSet) : Except PyErr ZoneObj := do
  let rtype ← typeSuffixLower rs.type
  match _type_to_property_name rtype with
  | none => .error .keyError
  | some _ =>
    let data := exportRecordData rs rtype
    if data.isEmpty then pure z
    else do
      let upd ← (match odGet z rs.name with
        | none => .ok (z ++ [(rs.name, ZDirVal.dict [(rtype, data)])])
        | some (ZDirVal.dict m) =>
          .ok (odSet z rs.name (fun _ => ZDirVal.dict (odSet m rtype (fun es => es.getD [] ++ data))))
        | some _ => .error .typeError)
      if rtype == "soa" then
        match rs.soa_record with
        | some r => pure (odSet upd "$ttl" (fun _ => ZDirVal.int r.minimum_ttl))
        | none => pure upd
      else pure upd

/-- export_zone, custom.py lines 1447-1511, up to the make_zone_file
rendering: fold the record sets into the single zone_obj dict. -/
def export_zone (resource_group_name zone_name datetime : String)
    (record_sets : List RecordSet) : Except PyErr ZoneObj :=
  record_sets.foldlM exportStep (zoneInit resource_group_name zone_name datetime)

/-- Modelled from the spec: make_zone_file and parse_zone_file (the zone_file
package is not among the sources) realize the bidirectional mapping between
the nested record-set dictionary and the line-oriented zone-file text.
Rendering the record data and parsing the text back is modelled as the
identity on the nested dictionary, except that each parsed entry additionally
carries its record-set name and record type, the fields import_zone's record
builder reads. -/
def zoneTextRoundtrip (records : ZoneRecords) : ZoneRecords :=
  records.map (fun nm => (nm.1, nm.2.map (fun tp =>
    (tp.1, tp.2.map (fun e => e ++ [("type", ZVal.str tp.1), ("name", ZVal.str nm.1)])))))

/-- entry[k] lookup in a parsed field dictionary. -/
def entryGet (e : ZoneEntry) (k : String) : Option ZVal :=
  odGet e k

/-- A string field read inside _build_record's try: a missing key raises
KeyError, which the except clause turns into CLIError. A non-string value
would be stored untyped by Python; the typed embedding reports modelMismatch,
excluded by well-formedness in the theorems. -/
def getStr (e : ZoneEntry) (k : String) : Except PyErr String :=
  match entryGet e k with
  | some (.str s) => .ok s
  | some _ => .error .modelMismatch
  | none => .error .cliError

/-- An int field read inside _build_record's try; see getStr. -/
def getInt (e : ZoneEntry) (k : String) : Except PyErr Int :=
  match entryGet e k with
  | some (.int n) => .ok n
  | some _ => .error .modelMismatch
  | none => .error .cliError

/-- The typed record object produced by _build_record; pynone stands for the
implicit None returned for a record type outside the dispatch chain. -/
inductive BuiltRecord where
  | a (r : ARecord)
  | aaaa (r : AaaaRecord)
  | cname (r : CnameRecord)
  | mx (r : MxRecord)
  | ns (r : NsRecord)
  | ptr (r : PtrRecord)
  | soa (r : SoaRecord)
  | srv (r : SrvRecord)
  | txt (r : TxtRecord)
  | pynone
deriving DecidableEq

/-- _build_record, custom.py lines 1515-1541: dispatch on entry type (the
lookup sits outside the try, so a missing type key raises KeyError and a
non-string type value raises AttributeError, both uncaught); build the typed
record from the entry fields, any missing field raising KeyError which the
except clause rewraps as CLIError; a type outside the chain returns None. -/
def _build_record (data : ZoneEntry) : Except PyErr BuiltRecord :=
  match entryGet data "type" with
  | none => .error .keyError
  | some (.int _) => .error .attributeError
  | some (.strList _) => .error .attributeError
  | some (.str t) =>
    match lowerString t with
    | "aaaa" => do pure (.aaaa ⟨← getStr data "ip"⟩)
    | "a" => do pure (.a ⟨← getStr data "ip"⟩)
    | "cname" => do pure (.cname ⟨← getStr data "alias"⟩)
    | "mx" => do pure (.mx ⟨← getInt data "preference", ← getStr data "host"⟩)
    | "ns" => do pure (.ns ⟨← getStr data "host"⟩)
    | "ptr" => do pure (.ptr ⟨← getStr data "host"⟩)
    | "soa" => do
      pure (.soa ⟨← getStr data "host", ← getStr data "email", ← getInt data "serial",
        ← getInt data "refresh", ← getInt data "retry", ← getInt data "expire",
        ← getInt data "minimum"⟩)
    | "srv" => do
      pure (.srv ⟨← getInt data "priority", ← getInt data "weight", ← getInt data "port",
        ← getStr data "target"⟩)
    | "txt" =>
      (match entryGet data "txt" with
       | some (.strList l) => .ok (.txt ⟨l⟩)
       | some (.str s) => .ok (.txt ⟨[s]⟩)
       | some (.int _) => .error .modelMismatch
       | none => .error .cliError)
    | "spf" =>
      (match entryGet data "txt" with
       | some (.strList l) => .ok (.txt ⟨l⟩)
       | some (.str s) => .ok (.txt ⟨[s]⟩)
       | some (.int _) => .error .modelMismatch
       | none => .error .cliError)
    | _ => .ok .pynone

/-- _add_record, custom.py lines 1750-1761: resolve the property for the
record-set type (KeyError when unknown); for a list property append the record
(creating the list when None), otherwise assign the scalar property. A record
object whose class does not fit the property is representable in Python but
not in the typed embedding; such calls report modelMismatch and are excluded
by well-formedness. -/
def _add_record (record_set : RecordSet) (record : BuiltRecord) (record_set_type : String)
    (is_list : Bool) : Except PyErr RecordSet :=
  match _type_to_property_name record_set_type with
  | none => .error .keyError
  | some prop =>
    if is_list then
      match prop, record with
      | "arecords", .a r => .ok { record_set with arecords := some ((record_set.arecords.getD []) ++ [r]) }
      | "aaaa_records", .aaaa r => .ok { record_set with aaaa_records := some ((record_set.aaaa_records.getD []) ++ [r]) }
      | "mx_records", .mx r => .ok { record_set with mx_records := some ((record_set.mx_records.getD []) ++ [r]) }
      | "ns_records", .ns r => .ok { record_set with ns_records := some ((record_set.ns_records.getD []) ++ [r]) }
      | "ptr_records", .ptr r => .ok { record_set with ptr_records := some ((record_set.ptr_records.getD []) ++ [r]) }
      | "srv_records", .srv r => .ok { record_set with srv_records := some ((record_set.srv_records.getD []) ++ [r]) }
      | "txt_records", .txt r => .ok { record_set with txt_records := some ((record_set.txt_records.getD []) ++ [r]) }
      | _, _ => .error .modelMismatch
    else
      match prop, record with
      | "cname_record", .cname r => .ok { record_set with cname_record := some r }
      | "soa_record", .soa r => .ok { record_set with soa_record := some r }
      | _, _ => .error .modelMismatch

/-- The triple-nested iteration of import_zone's first loop (custom.py lines
1552-1562) flattened: one element per record entry in iteration order, tagged
with its record-set name and type. A scalar cell, which the source wraps into
a singleton list (lines 1559-1560), is represented by a singleton cell. -/
def flattenZone (records : ZoneRecords) : List (String × String × ZoneEntry) :=
  records.flatMap (fun nm => nm.2.flatMap (fun tp => tp.2.map (fun e => (nm.1, tp.1, e))))

/-- The origin after import_zone's first loop (custom.py lines 1550,
1556-1557): initially the zone name, replaced by the rstripped record-set name
every time an soa type key is visited. -/
def originAfter (zone_name : String) (records : ZoneRecords) : String :=
  records.foldl (fun o nm =>
    nm.2.foldl (fun o2 tp => if tp.1 == "soa" then rstripDot nm.1 else o2) o) zone_name

/-- Whether a record type is stored as a list property: every type except soa
and cname (custom.py line 1574). -/
def isListType (record_set_type : String) : Bool :=
  !(lowerString record_set_type == "soa" || lowerString record_set_type == "cname")

/-- The record_set_ttl read of import_zone (custom.py line 1564): entry of the
ttl key; a missing key is an uncaught KeyError, a non-int value would be
stored untyped by Python and is reported as modelMismatch. -/
def entryTtl (e : ZoneEntry) : Except PyErr Int :=
  match entryGet e "ttl" with
  | some (.int n) => .ok n
  | some _ => .error .modelMismatch
  | none => .error .keyError

/-- One record entry processed into the record_sets dict (custom.py lines
1562-1574): read the entry ttl, build the record, create the record set on
first contact with the concatenated name.lower() ++ type key with the entry's
ttl, then add the record. -/
def importEntry (groups : List (String × RecordSet)) (nme : String × String × ZoneEntry) :
    Except PyErr (List (String × RecordSet)) := do
  let record_set_ttl ← entryTtl nme.2.2
  let record ← _build_record nme.2.2
  let key := lowerString nme.1 ++ nme.2.1
  match odGet groups key with
  | none => do
    let rs1 ← _add_record { name := rstripDot nme.1, type := nme.2.1, ttl := record_set_ttl }
      record nme.2.1 (isListType nme.2.1)
    pure (groups ++ [(key, rs1)])
  | some rs => do
    let rs1 ← _add_record rs record nme.2.1 (isListType nme.2.1)
    pure (updateFirst (fun kv => kv.1 == key) (fun kv => (kv.1, rs1)) groups)

/-- Building and adding one entry's record into an accumulating record set:
the per-entry work of import_zone's first loop once the record set exists. -/
def buildAdd (acc : RecordSet) (e : String × String × ZoneEntry) : Except PyErr RecordSet := do
  let record ← _build_record e.2.2
  _add_record acc record e.2.1 (isListType e.2.1)

/-- import_zone's first loop (custom.py lines 1551-1574): fold every record
entry into the record_sets dict. -/
def importGroups (records : ZoneRecords) : Except PyErr (List (String × RecordSet)) :=
  (flattenZone records).foldlM importEntry []

/-- Effectful map over a list in the Except monad, written structurally so
that proofs and evaluation can unfold it. -/
def exceptMapList {α β : Type} (f : α → Except PyErr β) : List α → Except PyErr (List β)
  | [] => .ok []
  | a :: as =>
    match f a with
    | .error e => .error e
    | .ok b =>
      match exceptMapList f as with
      | .error e => .error e
      | .ok bs => .ok (b :: bs)

/-- The per-record-set preparation of import_zone's submission loop (custom.py
lines 1588-1605): lower the type, rename the record set whose name equals the
origin to the root label; the two branches that replace root soa and ns data
with server state lie outside a client-side embedding and are reported as
serverCall. -/
def prepareForSubmit (origin : String) (rs : RecordSet) : Except PyErr RecordSet :=
  let rs2 := { rs with type := lowerString rs.type,
                       name := if rs.name == origin then "@" else rs.name }
  if rs2.name == "@" && rs2.type == "soa" then .error .serverCall
  else if rs2.name == "@" && rs2.type == "ns" then .error .serverCall
  else .ok rs2

/-- import_zone's pure record-set construction (custom.py lines 1544-1608, up
to the create_or_update submissions): group the parsed entries, then lower and
rename each grouped record set as the submission loop does. -/
def importRecordSets (zone_name : String) (records : ZoneRecords) :
    Except PyErr (List RecordSet) := do
  let groups ← importGroups records
  exceptMapList (fun kv => prepareForSubmit (originAfter zone_name records) kv.2) groups

/-- A record set holding one TXT record with the two strings a and b. -/
def txtSetAB : RecordSet :=
  { name := "t", type := "Microsoft.Network/dnszones/TXT", ttl := 60, txt_records := some [⟨["a", "b"]⟩] }

/-- A record set holding one TXT record with the single string a-space-b. -/
def txtSetA_B : RecordSet :=
  { name := "t", type := "Microsoft.Network/dnszones/TXT", ttl := 60, txt_records := some [⟨["a b"]⟩] }

/-- The record set reconstructed by importing the common export of the two TXT
record sets above. -/
def txtSetImported : RecordSet :=
  { name := "t", type := "txt", ttl := 60, txt_records := some [⟨["a b"]⟩] }

/-- C2 counterexample: export_zone space-joins the strings of a TXT record, so
the two distinct record sets above export to the same zone object; importing
the rendered text therefore cannot reconstruct both, and indeed the roundtrip
of the first yields a record set with the single string a-space-b instead of
the original pair. -/
theorem zone_roundtrip_counterexample :
    export_zone "rg" "zone.com" "dt" [txtSetAB] = export_zone "rg" "zone.com" "dt" [txtSetA_B]
    ∧ txtSetAB ≠ txtSetA_B
    ∧ export_zone "rg" "zone.com" "dt" [txtSetAB]
      = .ok [("$origin", ZDirVal.str "zone.com."), ("resource-group", ZDirVal.str "rg"),
             ("zone-name", ZDirVal.str "zone.com"), ("datetime", ZDirVal.str "dt"),
             ("t", ZDirVal.dict [("txt", [[("ttl", ZVal.int 60), ("txt", ZVal.str "a b")]])])]
    ∧ importRecordSets "zone.com"
        (zoneTextRoundtrip (zoneRecordsOf
          [("$origin", ZDirVal.str "zone.com."), ("resource-group", ZDirVal.str "rg"),
           ("zone-name", ZDirVal.str "zone.com"), ("datetime", ZDirVal.str "dt"),
           ("t", ZDirVal.dict [("txt", [[("ttl", ZVal.int 60), ("txt", ZVal.str "a b")]])])]))
      = .ok [txtSetImported]
    ∧ txtSetImported.txt_records ≠ txtSetAB.txt_records := by
  exact ⟨rfl, by decide, rfl, rfl, by decide⟩

/-- The single record set produced by importing a zone whose entries form the
two distinct pairs (xaaa, a) and (x, aaaa): both map to the concatenated key
xaaaa, so the a and aaaa records land in one record set carrying the first
entry's name, type and ttl. -/
def collidedSet : RecordSet :=
  { name := "xaaa", type := "a", ttl := 3600, arecords := some [⟨"1.2.3.4"⟩],
    aaaa_records := some [⟨"::1"⟩] }

/-- C4 counterexample: the grouping key is the string concatenation
name.lower() + type, not the pair, so the distinct pairs (xaaa, a) and
(x, aaaa) collide on the key xaaaa and produce a single record set instead of
two. -/
theorem import_grouping_counterexample :
    importGroups
        [("xaaa", [("a", [[("ttl", ZVal.int 3600), ("type", ZVal.str "a"), ("ip", ZVal.str "1.2.3.4")]])]),
         ("x", [("aaaa", [[("ttl", ZVal.int 300), ("type", ZVal.str "aaaa"), ("ip", ZVal.str "::1")]])])]
      = .ok [("xaaaa", collidedSet)]
    ∧ ("xaaa", "a") ≠ ("x", "aaaa") := by
  exact ⟨rfl, by decide⟩

/-- Helper: ordered-dict lookup misses exactly when find? does. -/
theorem odGet_eq_none_iff {β : Type} (m : List (String × β)) (k : String) :
    odGet m k = none ↔ m.find? (fun kv => kv.1 == k) = none := by
  simp [odGet]

/-- Helper: setting a fresh key appends the binding at the end. -/
theorem odSet_fresh {β : Type} (m : List (String × β)) (k : String) (f : Option β → β)
    (h : odGet m k = none) : odSet m k f = m ++ [(k, f none)] := by
  unfold odSet
  rw [(odGet_eq_none_iff m k).mp h]

/-- Helper: a lookup that misses the left part continues in the right part. -/
theorem odGet_append_left {β : Type} (m1 m2 : List (String × β)) (k : String)
    (h : odGet m1 k = none) : odGet (m1 ++ m2) k = odGet m2 k := by
  unfold odGet
  rw [List.find?_append, (odGet_eq_none_iff m1 k).mp h]
  rfl

/-- Helper: a lookup that hits the left part ignores the right part. -/
theorem odGet_append_hit {β : Type} (m1 m2 : List (String × β)) (k : String) (v : β)
    (h : odGet m1 k = some v) : odGet (m1 ++ m2) k = some v := by
  unfold odGet at *
  rw [List.find?_append]
  obtain ⟨kv, hkv, hmap⟩ := Option.map_eq_some'.mp h
  rw [hkv]
  simpa using hmap

/-- Helper: looking up the key of the appended singleton. -/
theorem odGet_append_singleton_self {β : Type} (m : List (String × β)) (k : String) (v : β)
    (h : odGet m k = none) : odGet (m ++ [(k, v)]) k = some v := by
  rw [odGet_append_left m _ k h]
  simp [odGet]

/-- Helper: updateFirst skips a left part with no hit. -/
theorem updateFirst_append {α : Type} (p : α → Bool) (f : α → α) (m1 m2 : List α)
    (h : ∀ x ∈ m1, ¬p x = true) :
    updateFirst p f (m1 ++ m2) = m1 ++ updateFirst p f m2 := by
  induction m1 with
  | nil => rfl
  | cons x m1 ih =>
    have hx := h x (by simp)
    show updateFirst p f (x :: (m1 ++ m2)) = x :: (m1 ++ updateFirst p f m2)
    rw [updateFirst, if_neg hx, ih (fun y hy => h y (by simp [hy]))]

/-- Helper: every element of updateFirst comes from the list, changed or
not. -/
theorem mem_updateFirst {α : Type} (p : α → Bool) (f : α → α) (m : List α) :
    ∀ x ∈ updateFirst p f m, x ∈ m ∨ ∃ y ∈ m, x = f y := by
  induction m with
  | nil => intro x hx; exact absurd hx (by simp [updateFirst])
  | cons a m ih =>
    intro x hx
    rw [updateFirst] at hx
    by_cases ha : p a = true
    · rw [if_pos ha] at hx
      rcases List.mem_cons.mp hx with heq | hmem
      · exact Or.inr ⟨a, by simp, heq⟩
      · exact Or.inl (by simp [hmem])
    · rw [if_neg ha] at hx
      rcases List.mem_cons.mp hx with heq | hmem
      · exact Or.inl (by simp [heq])
      · rcases ih x hmem with h | ⟨y, hy, hxy⟩
        · exact Or.inl (by simp [h])
        · exact Or.inr ⟨y, by simp [hy], hxy⟩

/-- Helper: appending a differently keyed binding does not change a lookup. -/
theorem odGet_append_singleton_ne {β : Type} (m : List (String × β)) (k k2 : String) (v : β)
    (h : (k2 == k) = false) : odGet (m ++ [(k2, v)]) k = odGet m k := by
  cases hm : odGet m k with
  | some w => exact odGet_append_hit m _ k w hm
  | none =>
    rw [odGet_append_left m _ k hm]
    simp [odGet, List.find?, h]

/-- Helper: replacing the first hit of a key, keeping the key, makes that
key's lookup the rewritten value. -/
theorem odGet_updateFirst_hit {β : Type} (m : List (String × β)) (k : String) (g : β → β) :
    ∀ kv0, m.find? (fun kv => kv.1 == k) = some kv0 →
    odGet (updateFirst (fun kv => kv.1 == k) (fun kv => (kv.1, g kv.2)) m) k = some (g kv0.2) := by
  induction m with
  | nil => intro kv0 h; simp [List.find?] at h
  | cons x m ih =>
    intro kv0 h
    by_cases hx : (x.1 == k) = true
    · rw [updateFirst, if_pos hx]
      simp only [List.find?, hx] at h
      have hxk : x = kv0 := by simpa using h
      subst hxk
      simp [odGet, List.find?, hx]
    · rw [updateFirst, if_neg hx]
      simp only [List.find?, hx] at h
      rw [show odGet ((x :: updateFirst (fun kv => kv.1 == k) (fun kv => (kv.1, g kv.2)) m) :
            List (String × β)) k
          = odGet (updateFirst (fun kv => kv.1 == k) (fun kv => (kv.1, g kv.2)) m) k from by
        simp [odGet, List.find?, hx]]
      exact ih kv0 h

/-- Helper: replacing the first hit of one key, keeping keys, preserves every
other key's lookup. -/
theorem odGet_updateFirst_keykeep {β : Type} (m : List (String × β)) (k k2 : String) (g : β → β)
    (h : (k == k2) = false) :
    odGet (updateFirst (fun kv => kv.1 == k2) (fun kv => (kv.1, g kv.2)) m) k = odGet m k := by
  induction m with
  | nil => rfl
  | cons x m ih =>
    by_cases hx : (x.1 == k2) = true
    · rw [updateFirst, if_pos hx]
      by_cases hxk : (x.1 == k) = true
      · exfalso
        have h1 : x.1 = k2 := by simpa using hx
        have h2 : x.1 = k := by simpa using hxk
        have h3 : k = k2 := by rw [← h2, h1]
        rw [h3] at h
        simp at h
      · simp [odGet, List.find?, hxk]
    · rw [updateFirst, if_neg hx]
      by_cases hxk : (x.1 == k) = true
      · simp [odGet, List.find?, hxk]
      · rw [show odGet ((x :: updateFirst (fun kv => kv.1 == k2) (fun kv => (kv.1, g kv.2)) m) :
              List (String × β)) k
            = odGet (updateFirst (fun kv => kv.1 == k2) (fun kv => (kv.1, g kv.2)) m) k from by
          simp [odGet, List.find?, hxk]]
        rw [show odGet (x :: m) k = odGet m k from by simp [odGet, List.find?, hxk]]
        exact ih

/-- Helper: setting a key makes its lookup the rewritten previous value. -/
theorem odGet_odSet_self {β : Type} (m : List (String × β)) (k : String) (f : Option β → β) :
    odGet (odSet m k f) k = some (f (odGet m k)) := by
  unfold odSet
  cases hf : m.find? (fun kv => kv.1 == k) with
  | none =>
    rw [show odGet m k = none from (odGet_eq_none_iff m k).mpr hf]
    exact odGet_append_singleton_self m k (f none) ((odGet_eq_none_iff m k).mpr hf)
  | some kv0 =>
    rw [show odGet m k = some kv0.2 from by unfold odGet; rw [hf]; rfl]
    exact odGet_updateFirst_hit m k (fun b => f (some b)) kv0 hf

/-- Helper: setting one key leaves every other key's lookup alone. -/
theorem odGet_odSet_ne {β : Type} (m : List (String × β)) (k k2 : String) (f : Option β → β)
    (h : (k == k2) = false) : odGet (odSet m k2 f) k = odGet m k := by
  unfold odSet
  cases hf : m.find? (fun kv => kv.1 == k2) with
  | none =>
    refine odGet_append_singleton_ne m k k2 (f none) ?_
    have hne := beq_eq_false_iff_ne.mp h
    exact beq_eq_false_iff_ne.mpr (Ne.symm hne)
  | some kv0 =>
    exact odGet_updateFirst_keykeep m k k2 (fun b => f (some b)) h

/-- Helper: setting the key of a freshly appended binding rewrites it in
place. -/
theorem odSet_append_singleton {β : Type} (m : List (String × β)) (k : String) (v : β)
    (f : Option β → β) (h : odGet m k = none) :
    odSet (m ++ [(k, v)]) k f = m ++ [(k, f (some v))] := by
  have hfind : (m ++ [(k, v)]).find? (fun kv => kv.1 == k) = some (k, v) := by
    rw [List.find?_append, (odGet_eq_none_iff m k).mp h]
    simp [List.find?]
  unfold odSet
  rw [hfind]
  show updateFirst (fun kv => kv.1 == k) (fun kv => (kv.1, f (some kv.2))) (m ++ [(k, v)])
      = m ++ [(k, f (some v))]
  rw [updateFirst_append (fun kv => kv.1 == k) (fun kv => (kv.1, f (some kv.2))) m [(k, v)]
    (List.find?_eq_none.mp ((odGet_eq_none_iff m k).mp h))]
  simp [updateFirst]

/-- Helper: the record-set view distributes over appending. -/
theorem zoneRecordsOf_append (z1 z2 : ZoneObj) :
    zoneRecordsOf (z1 ++ z2) = zoneRecordsOf z1 ++ zoneRecordsOf z2 := by
  simp [zoneRecordsOf, List.filterMap_append]

/-- Helper: rewriting a non-dict key to an int leaves the record-set view
alone. -/
theorem zoneRecordsOf_updateFirst_int (z : ZoneObj) (k : String) (n : Int)
    (h : ∀ kv ∈ z, kv.1 = k → ∀ m, kv.2 ≠ ZDirVal.dict m) :
    zoneRecordsOf (updateFirst (fun kv => kv.1 == k) (fun kv => (kv.1, ZDirVal.int n)) z)
      = zoneRecordsOf z := by
  induction z with
  | nil => rfl
  | cons x z ih =>
    by_cases hx : (x.1 == k) = true
    · rw [updateFirst, if_pos hx]
      have hx2 : ∀ m, x.2 ≠ ZDirVal.dict m := h x (by simp) (by simpa using hx)
      cases hv : x.2 with
      | dict m => exact absurd hv (hx2 m)
      | str s => simp [zoneRecordsOf, List.filterMap_cons, hv]
      | int m => simp [zoneRecordsOf, List.filterMap_cons, hv]
    · rw [updateFirst, if_neg hx]
      have ihz := ih (fun y hy => h y (by simp [hy]))
      simp only [zoneRecordsOf, List.filterMap_cons] at ihz ⊢
      rw [ihz]

/-- Helper: setting a non-dict key to an int leaves the record-set view
alone. -/
theorem zoneRecordsOf_odSet_int (z : ZoneObj) (k : String) (n : Int)
    (h : ∀ kv ∈ z, kv.1 = k → ∀ m, kv.2 ≠ ZDirVal.dict m) :
    zoneRecordsOf (odSet z k (fun _ => ZDirVal.int n)) = zoneRecordsOf z := by
  unfold odSet
  cases hf : z.find? (fun kv => kv.1 == k) with
  | none =>
    rw [show zoneRecordsOf (z ++ [(k, ZDirVal.int n)])
        = zoneRecordsOf z ++ zoneRecordsOf [(k, ZDirVal.int n)] from zoneRecordsOf_append z _]
    simp [zoneRecordsOf]
  | some kv0 =>
    exact zoneRecordsOf_updateFirst_int z k n h

/-- Helper: the initial zone_obj dict misses every non-directive name. -/
theorem zoneInit_fresh (rg zone_name datetime nm : String)
    (h : nm ∉ (["$origin", "resource-group", "zone-name", "datetime", "$ttl"] : List String)) :
    odGet (zoneInit rg zone_name datetime) nm = none := by
  simp only [List.mem_cons, List.not_mem_nil, or_false, not_or] at h
  obtain ⟨h1, h2, h3, h4, _⟩ := h
  have f1 : ("$origin" == nm) = false := beq_eq_false_iff_ne.mpr (Ne.symm h1)
  have f2 : ("resource-group" == nm) = false := beq_eq_false_iff_ne.mpr (Ne.symm h2)
  have f3 : ("zone-name" == nm) = false := beq_eq_false_iff_ne.mpr (Ne.symm h3)
  have f4 : ("datetime" == nm) = false := beq_eq_false_iff_ne.mpr (Ne.symm h4)
  simp [zoneInit, odGet, List.find?, f1, f2, f3, f4]

/-- Helper: the initial zone_obj dict holds no dict at the $ttl key. -/
theorem zoneInit_noDictTtl (rg zone_name datetime : String) :
    ∀ kv ∈ zoneInit rg zone_name datetime, kv.1 = "$ttl" → ∀ m, kv.2 ≠ ZDirVal.dict m := by
  intro kv hkv
  simp only [zoneInit, List.mem_cons, List.not_mem_nil, or_false] at hkv
  rcases hkv with rfl | rfl | rfl | rfl
  · intro hk
    exact absurd (show ("$origin" : String) = "$ttl" from hk) (by decide)
  · intro hk
    exact absurd (show ("resource-group" : String) = "$ttl" from hk) (by decide)
  · intro hk
    exact absurd (show ("zone-name" : String) = "$ttl" from hk) (by decide)
  · intro hk
    exact absurd (show ("datetime" : String) = "$ttl" from hk) (by decide)

/-- The contribution of one record set to the export dictionary: its name key
holding the resolved type key and field dictionaries, or nothing when the
record data is falsy. -/
def exportBlock (rs : RecordSet) : Option (String × List (String × List ZoneEntry)) :=
  match typeSuffixLower rs.type with
  | .ok rt => if (exportRecordData rs rt).isEmpty then none
      else some (rs.name, [(rt, exportRecordData rs rt)])
  | .error _ => none

/-- The export dictionary of a list of record sets with pairwise distinct
names. -/
def exportBlocks (sets : List RecordSet) : ZoneRecords :=
  sets.filterMap exportBlock

/-- The effect of one record set on the $ttl directive. -/
def exportTtlStep (acc : Option Int) (rs : RecordSet) : Option Int :=
  match typeSuffixLower rs.type with
  | .ok rt => if rt == "soa" && !(exportRecordData rs rt).isEmpty then soaMinimum rs else acc
  | .error _ => acc

/-- Helper: each record set either leaves every $ttl accumulator alone or
rewrites every accumulator to its (present) soa minimum. -/
theorem exportTtlStep_cases (rs : RecordSet) :
    (∀ acc, exportTtlStep acc rs = acc)
    ∨ ((∀ acc, exportTtlStep acc rs = soaMinimum rs) ∧ ∃ k, soaMinimum rs = some k) := by
  cases hrt : typeSuffixLower rs.type with
  | error e =>
    left
    intro acc
    unfold exportTtlStep
    rw [hrt]
  | ok rt =>
    by_cases hcond : (rt == "soa" && !(exportRecordData rs rt).isEmpty) = true
    · right
      constructor
      · intro acc
        unfold exportTtlStep
        rw [hrt]
        show (if (rt == "soa" && !(exportRecordData rs rt).isEmpty) = true
            then soaMinimum rs else acc) = _
        rw [if_pos hcond]
      · have hcond2 := hcond
        simp only [Bool.and_eq_true, beq_iff_eq] at hcond2
        obtain ⟨h1, h2⟩ := hcond2
        subst h1
        cases hsr : rs.soa_record with
        | none =>
          rw [show exportRecordData rs "soa" = [] from by simp [exportRecordData, hsr]] at h2
          simp at h2
        | some r => exact ⟨r.minimum_ttl, by simp [soaMinimum, hsr]⟩
    · left
      intro acc
      unfold exportTtlStep
      rw [hrt]
      show (if (rt == "soa" && !(exportRecordData rs rt).isEmpty) = true
          then soaMinimum rs else acc) = acc
      rw [if_neg hcond]

/-- Helper: folding the $ttl step from a set accumulator yields the fold from
none when the latter settles, and the accumulator otherwise. -/
theorem exportTtl_acc (sets : List RecordSet) : ∀ m : Int,
    sets.foldl exportTtlStep (some m) = some ((sets.foldl exportTtlStep none).getD m) := by
  induction sets with
  | nil => intro m; rfl
  | cons rs sets ih =>
    intro m
    rcases exportTtlStep_cases rs with hcase | ⟨hall, k, hk⟩
    · rw [List.foldl_cons, List.foldl_cons, hcase (some m), hcase none]
      exact ih m
    · rw [List.foldl_cons, List.foldl_cons, hall (some m), hall none, hk]
      rw [ih k]
      simp

/-- Helper: the export fold characterized on the single zone_obj dict, for
record sets with resolvable known types, pairwise distinct names fresh for
the accumulator and different from $ttl, when the accumulator holds no dict
at $ttl: the fold succeeds, the record-set view gains one block per data-
bearing set, and the $ttl key follows the soa steps. -/
theorem export_fold (sets : List RecordSet) : ∀ z0 : ZoneObj,
    (∀ rs ∈ sets, ∃ rt, typeSuffixLower rs.type = .ok rt ∧ (_type_to_property_name rt).isSome) →
    (∀ rs ∈ sets, odGet z0 rs.name = none) →
    (sets.map (fun rs => rs.name)).Nodup →
    (∀ rs ∈ sets, (rs.name == "$ttl") = false) →
    (∀ kv ∈ z0, kv.1 = "$ttl" → ∀ m, kv.2 ≠ ZDirVal.dict m) →
    ∃ z, List.foldlM exportStep z0 sets = .ok z
    ∧ zoneRecordsOf z = zoneRecordsOf z0 ++ exportBlocks sets
    ∧ (∀ n : Int, sets.foldl exportTtlStep none = some n → odGet z "$ttl" = some (ZDirVal.int n))
    ∧ (sets.foldl exportTtlStep none = none → odGet z "$ttl" = odGet z0 "$ttl") := by
  induction sets with
  | nil =>
    intro z0 _ _ _ _ _
    refine ⟨z0, rfl, by simp [exportBlocks], ?_, fun _ => rfl⟩
    intro n hn
    simp at hn
  | cons rs sets ih =>
    intro z0 hok hfresh hnodup hT hdir
    obtain ⟨rt, hrt, hpropS⟩ := hok rs (by simp)
    obtain ⟨prop, hprop⟩ := Option.isSome_iff_exists.mp hpropS
    have hnodup2 : rs.name ∉ sets.map (fun r : RecordSet => r.name)
        ∧ (sets.map (fun r : RecordSet => r.name)).Nodup :=
      List.nodup_cons.mp (by simpa using hnodup)
    by_cases hdata : (exportRecordData rs rt).isEmpty
    · have hstep : exportStep z0 rs = pure z0 := by
        simp only [exportStep, hrt, Bind.bind, Except.bind, hprop]
        rw [if_pos hdata]
      have hblock : exportBlock rs = none := by
        simp only [exportBlock, hrt, if_pos hdata]
      have httl0 : ∀ acc, exportTtlStep acc rs = acc := by
        intro acc
        unfold exportTtlStep
        rw [hrt]
        show (if (rt == "soa" && !(exportRecordData rs rt).isEmpty) = true
            then soaMinimum rs else acc) = acc
        rw [if_neg (by simp [hdata])]
      obtain ⟨z, hz, hrec, hA, hB⟩ := ih z0 (fun r hr => hok r (by simp [hr]))
        (fun r hr => hfresh r (by simp [hr])) hnodup2.2 (fun r hr => hT r (by simp [hr])) hdir
      refine ⟨z, ?_, ?_, ?_, ?_⟩
      · rw [List.foldlM_cons, hstep]
        simpa [Bind.bind, Except.bind, pure, Except.pure] using hz
      · rw [hrec]
        simp [exportBlocks, List.filterMap_cons, hblock]
      · intro n hn
        rw [List.foldl_cons, httl0 none] at hn
        exact hA n hn
      · intro hn
        rw [List.foldl_cons, httl0 none] at hn
        exact hB hn
    · have hfresh0 : odGet z0 rs.name = none := hfresh rs (by simp)
      have hodz2 : ∀ r2 ∈ sets,
          odGet (z0 ++ [(rs.name, ZDirVal.dict [(rt, exportRecordData rs rt)])]) r2.name = none := by
        intro r2 hr2
        have hne : (rs.name == r2.name) = false := by
          simp only [beq_eq_false_iff_ne, ne_eq]
          intro heq
          exact hnodup2.1 (heq ▸ List.mem_map_of_mem (fun x : RecordSet => x.name) hr2)
        rw [odGet_append_singleton_ne _ _ _ _ hne]
        exact hfresh r2 (by simp [hr2])
      have hdir2 : ∀ kv ∈ z0 ++ [(rs.name, ZDirVal.dict [(rt, exportRecordData rs rt)])],
          kv.1 = "$ttl" → ∀ m, kv.2 ≠ ZDirVal.dict m := by
        intro kv hkv hk1
        rcases List.mem_append.mp hkv with h1 | h1
        · exact hdir kv h1 hk1
        · simp only [List.mem_singleton] at h1
          subst h1
          exfalso
          have hTr := hT rs (by simp)
          have hk2 : rs.name = "$ttl" := hk1
          rw [hk2] at hTr
          simp at hTr
      have hrecz2 : zoneRecordsOf (z0 ++ [(rs.name, ZDirVal.dict [(rt, exportRecordData rs rt)])])
          = zoneRecordsOf z0 ++ [(rs.name, [(rt, exportRecordData rs rt)])] := by
        rw [zoneRecordsOf_append]
        rfl
      have hblock : exportBlock rs = some (rs.name, [(rt, exportRecordData rs rt)]) := by
        simp only [exportBlock, hrt]
        rw [if_neg hdata]
      by_cases hsoa : rt = "soa"
      · subst hsoa
        cases hsr : rs.soa_record with
        | none =>
          exfalso
          apply hdata
          rw [show exportRecordData rs "soa" = [] from by simp [exportRecordData, hsr]]
          rfl
        | some r =>
          have hstep : exportStep z0 rs
              = pure (odSet (z0 ++ [(rs.name, ZDirVal.dict [("soa", exportRecordData rs "soa")])])
                  "$ttl" (fun _ => ZDirVal.int r.minimum_ttl)) := by
            simp only [exportStep, hrt, Bind.bind, Except.bind, hprop, hfresh0, hsr]
            rw [if_neg hdata, if_pos (show ("soa" == "soa") = true from rfl)]
          have hfresh3 : ∀ r2 ∈ sets,
              odGet (odSet (z0 ++ [(rs.name, ZDirVal.dict [("soa", exportRecordData rs "soa")])])
                "$ttl" (fun _ => ZDirVal.int r.minimum_ttl)) r2.name = none := by
            intro r2 hr2
            rw [odGet_odSet_ne _ _ _ _ (hT r2 (by simp [hr2]))]
            exact hodz2 r2 hr2
          have hdir3 : ∀ kv ∈ odSet (z0 ++ [(rs.name, ZDirVal.dict [("soa", exportRecordData rs "soa")])])
              "$ttl" (fun _ => ZDirVal.int r.minimum_ttl), kv.1 = "$ttl" → ∀ m, kv.2 ≠ ZDirVal.dict m := by
            intro kv hkv hk1
            unfold odSet at hkv
            cases hf : (z0 ++ [(rs.name, ZDirVal.dict [("soa", exportRecordData rs "soa")])]).find?
                (fun kv => kv.1 == "$ttl") with
            | none =>
              rw [hf] at hkv
              rcases List.mem_append.mp hkv with h1 | h1
              · exact hdir2 kv h1 hk1
              · simp only [List.mem_singleton] at h1
                subst h1
                intro m
                simp
            | some kv0 =>
              rw [hf] at hkv
              rcases mem_updateFirst _ _ _ kv hkv with h1 | ⟨y, hy, hxy⟩
              · exact hdir2 kv h1 hk1
              · subst hxy
                intro m
                simp
          have httlz3 : odGet (odSet (z0 ++ [(rs.name, ZDirVal.dict [("soa", exportRecordData rs "soa")])])
              "$ttl" (fun _ => ZDirVal.int r.minimum_ttl)) "$ttl" = some (ZDirVal.int r.minimum_ttl) := by
            rw [odGet_odSet_self]
          have hrec3 : zoneRecordsOf (odSet (z0 ++ [(rs.name, ZDirVal.dict [("soa", exportRecordData rs "soa")])])
              "$ttl" (fun _ => ZDirVal.int r.minimum_ttl))
              = zoneRecordsOf (z0 ++ [(rs.name, ZDirVal.dict [("soa", exportRecordData rs "soa")])]) :=
            zoneRecordsOf_odSet_int _ "$ttl" r.minimum_ttl hdir2
          have httlstep : exportTtlStep none rs = some r.minimum_ttl := by
            unfold exportTtlStep
            rw [hrt]
            show (if (("soa" == "soa") && !(exportRecordData rs "soa").isEmpty) = true
                then soaMinimum rs else none) = _
            rw [if_pos (by
              simp only [Bool.and_eq_true]
              refine ⟨rfl, ?_⟩
              cases hie : (exportRecordData rs "soa").isEmpty with
              | true => exact absurd hie hdata
              | false => rfl)]
            simp [soaMinimum, hsr]
          obtain ⟨z, hz, hrec, hA, hB⟩ := ih
            (odSet (z0 ++ [(rs.name, ZDirVal.dict [("soa", exportRecordData rs "soa")])])
              "$ttl" (fun _ => ZDirVal.int r.minimum_ttl))
            (fun r2 hr2 => hok r2 (by simp [hr2])) hfresh3 hnodup2.2
            (fun r2 hr2 => hT r2 (by simp [hr2])) hdir3
          refine ⟨z, ?_, ?_, ?_, ?_⟩
          · rw [List.foldlM_cons, hstep]
            simpa [Bind.bind, Except.bind, pure, Except.pure] using hz
          · rw [hrec, hrec3, hrecz2]
            simp [exportBlocks, List.filterMap_cons, hblock, List.append_assoc]
          · intro n hn
            rw [List.foldl_cons, httlstep, exportTtl_acc sets r.minimum_ttl] at hn
            have hn2 : (sets.foldl exportTtlStep none).getD r.minimum_ttl = n := by
              simpa using hn
            cases hfs : sets.foldl exportTtlStep none with
            | some n2 =>
              rw [hfs] at hn2
              simp only [Option.getD_some] at hn2
              subst hn2
              exact hA n2 hfs
            | none =>
              rw [hfs] at hn2
              simp only [Option.getD_none] at hn2
              subst hn2
              rw [hB hfs, httlz3]
          · intro hn
            rw [List.foldl_cons, httlstep, exportTtl_acc sets r.minimum_ttl] at hn
            exact absurd hn (by simp)
      · have hstep : exportStep z0 rs
            = pure (z0 ++ [(rs.name, ZDirVal.dict [(rt, exportRecordData rs rt)])]) := by
          simp only [exportStep, hrt, Bind.bind, Except.bind, hprop, hfresh0]
          rw [if_neg hdata, if_neg (by simp [hsoa])]
        have httl0 : ∀ acc, exportTtlStep acc rs = acc := by
          intro acc
          unfold exportTtlStep
          rw [hrt]
          show (if (rt == "soa" && !(exportRecordData rs rt).isEmpty) = true
              then soaMinimum rs else acc) = acc
          rw [if_neg (by simp [hsoa])]
        have httlget : odGet (z0 ++ [(rs.name, ZDirVal.dict [(rt, exportRecordData rs rt)])]) "$ttl"
            = odGet z0 "$ttl" :=
          odGet_append_singleton_ne _ _ _ _ (hT rs (by simp))
        obtain ⟨z, hz, hrec, hA, hB⟩ := ih (z0 ++ [(rs.name, ZDirVal.dict [(rt, exportRecordData rs rt)])])
          (fun r2 hr2 => hok r2 (by simp [hr2])) hodz2 hnodup2.2
          (fun r2 hr2 => hT r2 (by simp [hr2])) hdir2
        refine ⟨z, ?_, ?_, ?_, ?_⟩
        · rw [List.foldlM_cons, hstep]
          simpa [Bind.bind, Except.bind, pure, Except.pure] using hz
        · rw [hrec, hrecz2]
          simp [exportBlocks, List.filterMap_cons, hblock, List.append_assoc]
        · intro n hn
          rw [List.foldl_cons, httl0 none] at hn
          exact hA n hn
        · intro hn
          rw [List.foldl_cons, httl0 none] at hn
          rw [hB hn, httlget]

/-- Helper: an export block carries the record set's name as its key. -/
theorem exportBlock_name (rs : RecordSet) (kv : String × List (String × List ZoneEntry))
    (h : exportBlock rs = some kv) : kv.1 = rs.name := by
  unfold exportBlock at h
  split at h
  · split at h
    · exact absurd h (by simp)
    · rw [← Option.some_inj.mp h]
  · exact absurd h (by simp)

/-- Helper: every key of the export dictionary is the name of a record set. -/
theorem exportBlocks_key_mem (sets : List RecordSet) :
    ∀ kv ∈ exportBlocks sets, kv.1 ∈ sets.map (fun r : RecordSet => r.name) := by
  induction sets with
  | nil => simp [exportBlocks]
  | cons s sets ih =>
    intro kv hkv
    rw [exportBlocks, List.filterMap_cons] at hkv
    cases hb : exportBlock s with
    | none =>
      rw [hb] at hkv
      exact List.mem_cons_of_mem _ (ih kv hkv)
    | some b =>
      rw [hb] at hkv
      rcases List.mem_cons.mp hkv with hkv | hkv
      · subst hkv
        simp [exportBlock_name s kv hb]
      · exact List.mem_cons_of_mem _ (ih kv hkv)

/-- Helper: looking up a record set's name in the export dictionary finds its
block when its data is nonempty, and nothing when its data is empty. -/
theorem exportBlocks_lookup (sets : List RecordSet) :
    (sets.map (fun r : RecordSet => r.name)).Nodup →
    ∀ rs ∈ sets, ∀ rt, typeSuffixLower rs.type = .ok rt →
      (exportRecordData rs rt ≠ [] →
        odGet (exportBlocks sets) rs.name = some [(rt, exportRecordData rs rt)])
      ∧ (exportRecordData rs rt = [] → odGet (exportBlocks sets) rs.name = none) := by
  induction sets with
  | nil => intro _ rs h; exact absurd h (by simp)
  | cons s sets ih =>
    intro hnodup rs hmem rt hrt
    have hnodup2 : s.name ∉ sets.map (fun r : RecordSet => r.name)
        ∧ (sets.map (fun r : RecordSet => r.name)).Nodup :=
      List.nodup_cons.mp (by simpa using hnodup)
    have habsent : ∀ nm, nm ∉ sets.map (fun r : RecordSet => r.name) →
        odGet (exportBlocks sets) nm = none := by
      intro nm hnm
      rw [odGet_eq_none_iff, List.find?_eq_none]
      intro kv hkv
      simp only [beq_iff_eq]
      intro heq
      exact hnm (heq ▸ exportBlocks_key_mem sets kv hkv)
    rcases List.mem_cons.mp hmem with heq | hmem2
    · subst heq
      constructor
      · intro hne
        have hblock : exportBlock rs = some (rs.name, [(rt, exportRecordData rs rt)]) := by
          simp only [exportBlock, hrt]
          rw [if_neg (by simpa using hne)]
        rw [exportBlocks, List.filterMap_cons, hblock]
        simp [odGet, List.find?]
      · intro hemp
        have hblock : exportBlock rs = none := by
          simp only [exportBlock, hrt]
          rw [if_pos (by simpa using hemp)]
        rw [exportBlocks, List.filterMap_cons, hblock]
        exact habsent rs.name hnodup2.1
    · have hne : ¬(s.name == rs.name) = true := by
        simp only [beq_iff_eq]
        intro heq
        exact hnodup2.1 (heq ▸ List.mem_map_of_mem (fun x : RecordSet => x.name) hmem2)
      have ihr := ih hnodup2.2 rs hmem2 rt hrt
      rw [exportBlocks, List.filterMap_cons]
      cases hb : exportBlock s with
      | none => exact ihr
      | some b =>
        have hb1 : b.1 = s.name := exportBlock_name s b hb
        constructor
        · intro hd
          have := ihr.1 hd
          show odGet ([b] ++ exportBlocks sets) rs.name = _
          rw [odGet_append_left]
          · exact this
          · simp [odGet, List.find?, hb1, hne]
        · intro hd
          have := ihr.2 hd
          show odGet ([b] ++ exportBlocks sets) rs.name = none
          rw [odGet_append_left]
          · exact this
          · simp [odGet, List.find?, hb1, hne]

/-- Helper: a record set that is not an soa set with data leaves the $ttl
accumulator unchanged. -/
theorem exportTtlStep_neutral (s : RecordSet)
    (h : ∀ rt, typeSuffixLower s.type = .ok rt → rt = "soa" → exportRecordData s rt = []) :
    ∀ acc, exportTtlStep acc s = acc := by
  intro acc
  unfold exportTtlStep
  cases hrt : typeSuffixLower s.type with
  | error e => rfl
  | ok rt =>
    show (if (rt == "soa" && !(exportRecordData s rt).isEmpty) = true then soaMinimum s else acc) = acc
    by_cases hsoa : rt = "soa"
    · have := h rt hrt hsoa
      rw [if_neg (by simp [this])]
    · rw [if_neg (by simp [hsoa])]

/-- Helper: a fold over neutral record sets leaves the accumulator alone. -/
theorem exportTtl_neutral_fold (sets : List RecordSet)
    (h : ∀ s ∈ sets, ∀ a, exportTtlStep a s = a) :
    ∀ acc, sets.foldl exportTtlStep acc = acc := by
  induction sets with
  | nil => intro acc; rfl
  | cons s sets ih =>
    intro acc
    rw [List.foldl_cons, h s (by simp)]
    exact ih (fun x hx a => h x (by simp [hx]) a) acc

/-- Helper: with a single soa-bearing record set, the folded $ttl directive is
that set's minimum ttl, whatever the starting accumulator. -/
theorem exportTtl_single (sets : List RecordSet) (rs : RecordSet) (r : SoaRecord)
    (hrt : typeSuffixLower rs.type = .ok "soa") (hsoa : rs.soa_record = some r) :
    ∀ acc, (sets.map (fun x : RecordSet => x.name)).Nodup → rs ∈ sets →
    (∀ rs2 ∈ sets, typeSuffixLower rs2.type = .ok "soa" → rs2.soa_record ≠ none → rs2 = rs) →
    sets.foldl exportTtlStep acc = some r.minimum_ttl := by
  induction sets with
  | nil => intro _ _ h; exact absurd h (by simp)
  | cons s sets ih =>
    intro acc hnodup hmem huniq
    have hnodup2 : s.name ∉ sets.map (fun x : RecordSet => x.name)
        ∧ (sets.map (fun x : RecordSet => x.name)).Nodup :=
      List.nodup_cons.mp (by simpa using hnodup)
    rw [List.foldl_cons]
    rcases List.mem_cons.mp hmem with heq | hmem2
    · subst heq
      have hnotail : rs ∉ sets := by
        intro hmem2
        exact hnodup2.1 (List.mem_map_of_mem (fun x : RecordSet => x.name) hmem2)
      have hstep : exportTtlStep acc rs = some r.minimum_ttl := by
        unfold exportTtlStep
        rw [hrt]
        show (if ("soa" == "soa" && !(exportRecordData rs "soa").isEmpty) = true then soaMinimum rs else acc) = _
        rw [if_pos (by simp [exportRecordData, hsoa])]
        simp [soaMinimum, hsoa]
      rw [hstep]
      apply exportTtl_neutral_fold
      intro s2 hs2 a
      apply exportTtlStep_neutral
      intro rt2 hrt2 hsoa2
      subst hsoa2
      by_cases hdat : exportRecordData s2 "soa" = []
      · exact hdat
      · have hrec : s2.soa_record ≠ none := by
          intro hn
          exact hdat (by simp [exportRecordData, hn])
        have heq2 : s2 = rs := huniq s2 (by simp [hs2]) hrt2 hrec
        exact absurd (heq2 ▸ hs2) hnotail
    · have hsner : ∀ a, exportTtlStep a s = a := by
        intro a
        apply exportTtlStep_neutral
        intro rt2 hrt2 hsoa2
        subst hsoa2
        by_cases hdat : exportRecordData s "soa" = []
        · exact hdat
        · have hrec : s.soa_record ≠ none := by
            intro hn
            exact hdat (by simp [exportRecordData, hn])
          have heq2 : s = rs := huniq s (by simp) hrt2 hrec
          exact absurd (heq2 ▸ hmem2) (by simpa [heq2] using hnodup2.1 ∘ List.mem_map_of_mem (fun x : RecordSet => x.name))
      rw [hsner acc]
      exact ih acc hnodup2.2 hmem2 (fun x hx => huniq x (by simp [hx]))

/-- A record set named after the datetime directive key of zone_obj, holding
one a record. -/
def datetimeSet : RecordSet :=
  { name := "datetime", type := "Microsoft.Network/dnszones/A", ttl := 3600,
    arecords := some [⟨"1.2.3.4"⟩] }

/-- C5 counterexample: a record set named datetime has resolvable type and
nonempty record data, yet export_zone raises an uncaught TypeError instead of
adding its field dictionaries: the name is already a key of the initial
zone_obj dict holding the strftime string, so the record loop's item
assignment on the string raises. -/
theorem export_zone_directive_counterexample :
    export_zone "rg" "zone.com" "Mon, 01 Jan 2001 00:00:00" [datetimeSet] = .error .typeError
    ∧ typeSuffixLower datetimeSet.type = .ok "a"
    ∧ exportRecordData datetimeSet "a" ≠ [] := by
  exact ⟨rfl, rfl, by decide⟩

/-- C5 (amended): for record sets with resolvable known types and pairwise
distinct names that avoid the zone_obj directive keys ($origin,
resource-group, zone-name, datetime, $ttl — the counterexample shows a
directive-named set raises TypeError instead), export_zone succeeds; under a
record set's name and lower-cased type the record-set view of the output
holds exactly the field dictionaries of exportRecordData (one per record,
each the record set's ttl plus the type-specific fields, as read off the
source in the definition of exportRecordData); record sets with no record
data contribute no name key; and with a single soa-bearing record set the
$ttl key is that soa record's minimum ttl. -/
theorem export_zone_fields (rg zone_name datetime : String) (sets : List RecordSet)
    (hok : ∀ rs ∈ sets, ∃ rt, typeSuffixLower rs.type = .ok rt ∧ (_type_to_property_name rt).isSome)
    (hnodup : (sets.map (fun r : RecordSet => r.name)).Nodup)
    (hdirn : ∀ rs ∈ sets,
      rs.name ∉ (["$origin", "resource-group", "zone-name", "datetime", "$ttl"] : List String)) :
    ∃ z, export_zone rg zone_name datetime sets = .ok z
    ∧ zoneRecordsOf z = exportBlocks sets
    ∧ (∀ rs ∈ sets, ∀ rt, typeSuffixLower rs.type = .ok rt →
        (exportRecordData rs rt ≠ [] →
          odGet (zoneRecordsOf z) rs.name = some [(rt, exportRecordData rs rt)])
        ∧ (exportRecordData rs rt = [] → odGet (zoneRecordsOf z) rs.name = none))
    ∧ (∀ rs ∈ sets, ∀ r : SoaRecord, typeSuffixLower rs.type = .ok "soa" →
        rs.soa_record = some r →
        (∀ rs2 ∈ sets, typeSuffixLower rs2.type = .ok "soa" → rs2.soa_record ≠ none → rs2 = rs) →
        odGet z "$ttl" = some (ZDirVal.int r.minimum_ttl)) := by
  have hT : ∀ rs ∈ sets, (rs.name == "$ttl") = false := by
    intro rs hr
    refine beq_eq_false_iff_ne.mpr ?_
    intro heq
    exact hdirn rs hr (by rw [heq]; simp)
  obtain ⟨z, hz, hrec, hA, _⟩ := export_fold sets (zoneInit rg zone_name datetime) hok
    (fun rs hr => zoneInit_fresh rg zone_name datetime rs.name (hdirn rs hr)) hnodup hT
    (zoneInit_noDictTtl rg zone_name datetime)
  have hrec2 : zoneRecordsOf z = exportBlocks sets := by
    rw [hrec]
    rfl
  refine ⟨z, hz, hrec2, ?_, ?_⟩
  · intro rs hmem rt hrt
    rw [hrec2]
    exact exportBlocks_lookup sets hnodup rs hmem rt hrt
  · intro rs hmem r hrt hsoa huniq
    exact hA r.minimum_ttl (exportTtl_single sets rs r hrt hsoa none hnodup hmem huniq)

/-- A concrete soa record set for the C5 witness. -/
def soaSetW : RecordSet :=
  { name := "root", type := "Microsoft.Network/dnszones/SOA", ttl := 3600,
    soa_record := some ⟨"ns1.x.com", "mail.x.com", 1, 2, 3, 4, 300⟩ }

/-- A concrete a record set for the C5 witness. -/
def aSetW : RecordSet :=
  { name := "www", type := "Microsoft.Network/dnszones/A", ttl := 3600,
    arecords := some [⟨"1.2.3.4"⟩] }

/-- C5 witness: the exported zone of a concrete soa plus a record set, via
export_zone_fields. -/
theorem export_zone_fields_witness :
    ∃ z, export_zone "rg" "zone.com" "dt" [soaSetW, aSetW] = .ok z
    ∧ odGet (zoneRecordsOf z) "www" = some [("a", [[("ttl", ZVal.int 3600), ("ip", ZVal.str "1.2.3.4")]])]
    ∧ odGet z "$ttl" = some (ZDirVal.int 300) := by
  obtain ⟨z, hz, hrec, hlook, httl⟩ := export_zone_fields "rg" "zone.com" "dt" [soaSetW, aSetW]
    (by
      intro rs hmem
      simp only [List.mem_cons, List.not_mem_nil, or_false] at hmem
      rcases hmem with rfl | rfl
      · exact ⟨"soa", by decide, by decide⟩
      · exact ⟨"a", by decide, by decide⟩)
    (by decide)
    (by decide)
  refine ⟨z, hz, ?_, ?_⟩
  · exact (hlook aSetW (by simp) "a" (by decide)).1 (by decide)
  · refine httl soaSetW (by simp) ⟨"ns1.x.com", "mail.x.com", 1, 2, 3, 4, 300⟩ (by decide) rfl ?_
    intro rs2 hmem2 hrt2 hsoa2
    simp only [List.mem_cons, List.not_mem_nil, or_false] at hmem2
    rcases hmem2 with rfl | rfl
    · rfl
    · exact absurd hrt2 (by decide)

/-- Helper: one entry whose key matches the single group updates that group by
buildAdd. -/
theorem importEntry_hit (k : String) (rs : RecordSet) (e : String × String × ZoneEntry)
    (hkey : lowerString e.1 ++ e.2.1 = k) (n : Int)
    (hn : entryGet e.2.2 "ttl" = some (ZVal.int n)) :
    importEntry [(k, rs)] e = Except.map (fun rs2 => [(k, rs2)]) (buildAdd rs e) := by
  unfold importEntry buildAdd
  have httl : entryTtl e.2.2 = .ok n := by
    unfold entryTtl
    rw [hn]
  rw [httl]
  cases hbr : _build_record e.2.2 with
  | error err => simp [Bind.bind, Except.bind, Except.map]
  | ok b =>
    simp only [Bind.bind, Except.bind, hkey]
    have hget : odGet [(k, rs)] k = some rs := by simp [odGet, List.find?]
    rw [hget]
    cases har : _add_record rs b e.2.1 (isListType e.2.1) with
    | error err2 => simp [har, Except.map]
    | ok rs1 =>
      simp [har, Except.map, updateFirst, pure, Except.pure]

/-- Helper: a run of entries sharing the single group's key folds buildAdd
over that group. -/
theorem importEntries_acc (es : List (String × String × ZoneEntry)) :
    ∀ (k : String) (rs : RecordSet),
    (∀ e ∈ es, lowerString e.1 ++ e.2.1 = k) →
    (∀ e ∈ es, ∃ n, entryGet e.2.2 "ttl" = some (ZVal.int n)) →
    List.foldlM importEntry [(k, rs)] es
      = Except.map (fun rs2 => [(k, rs2)]) (List.foldlM buildAdd rs es) := by
  induction es with
  | nil => intro k rs _ _; rfl
  | cons e es ih =>
    intro k rs hkey httl
    obtain ⟨n, hn⟩ := httl e (by simp)
    rw [List.foldlM_cons, List.foldlM_cons]
    rw [importEntry_hit k rs e (hkey e (by simp)) n hn]
    cases hb : buildAdd rs e with
    | error err => simp [Bind.bind, Except.bind, Except.map]
    | ok rs1 =>
      simp only [Except.map, Bind.bind, Except.bind]
      exact ih k rs1 (fun x hx => hkey x (by simp [hx])) (fun x hx => httl x (by simp [hx]))

/-- Helper: an entry whose key is the freshly appended group updates it in
place, leaving the earlier groups alone. -/
theorem importEntry_hit_append (g : List (String × RecordSet)) (k : String) (rs : RecordSet)
    (e : String × String × ZoneEntry) (hkey : lowerString e.1 ++ e.2.1 = k) (n : Int)
    (hn : entryGet e.2.2 "ttl" = some (ZVal.int n)) (hfresh : odGet g k = none) :
    importEntry (g ++ [(k, rs)]) e = Except.map (fun rs2 => g ++ [(k, rs2)]) (buildAdd rs e) := by
  have hnog : ∀ kv ∈ g, ¬(kv.1 == k) = true :=
    List.find?_eq_none.mp ((odGet_eq_none_iff g k).mp hfresh)
  unfold importEntry buildAdd
  have httl : entryTtl e.2.2 = .ok n := by
    unfold entryTtl
    rw [hn]
  rw [httl]
  cases hbr : _build_record e.2.2 with
  | error err => simp [Bind.bind, Except.bind, Except.map]
  | ok b =>
    simp only [Bind.bind, Except.bind, hkey]
    rw [odGet_append_singleton_self g k rs hfresh]
    cases har : _add_record rs b e.2.1 (isListType e.2.1) with
    | error err2 => simp [har, Except.map]
    | ok rs1 =>
      simp only [har, Except.map, pure, Except.pure]
      rw [updateFirst_append _ _ g _ hnog]
      simp [updateFirst]

/-- Helper: a run of key-sharing entries over appended groups localizes to the
appended group. -/
theorem importEntries_acc_append (es : List (String × String × ZoneEntry)) :
    ∀ (g : List (String × RecordSet)) (k : String) (rs : RecordSet),
    (∀ e ∈ es, lowerString e.1 ++ e.2.1 = k) →
    (∀ e ∈ es, ∃ n, entryGet e.2.2 "ttl" = some (ZVal.int n)) →
    odGet g k = none →
    List.foldlM importEntry (g ++ [(k, rs)]) es
      = Except.map (fun rs2 => g ++ [(k, rs2)]) (List.foldlM buildAdd rs es) := by
  induction es with
  | nil => intro g k rs _ _ _; rfl
  | cons e es ih =>
    intro g k rs hkey httl hfresh
    obtain ⟨n, hn⟩ := httl e (by simp)
    rw [List.foldlM_cons, List.foldlM_cons]
    rw [importEntry_hit_append g k rs e (hkey e (by simp)) n hn hfresh]
    cases hb : buildAdd rs e with
    | error err => simp [Bind.bind, Except.bind, Except.map]
    | ok rs1 =>
      simp only [Except.map, Bind.bind, Except.bind]
      exact ih g k rs1 (fun x hx => hkey x (by simp [hx])) (fun x hx => httl x (by simp [hx])) hfresh

/-- Helper: an entry with a fresh key creates its record set at the end of the
groups. -/
theorem importEntry_create (g : List (String × RecordSet)) (e : String × String × ZoneEntry)
    (n : Int) (hn : entryGet e.2.2 "ttl" = some (ZVal.int n))
    (hfresh : odGet g (lowerString e.1 ++ e.2.1) = none) :
    importEntry g e = Except.map (fun rs1 => g ++ [(lowerString e.1 ++ e.2.1, rs1)])
      (buildAdd { name := rstripDot e.1, type := e.2.1, ttl := n } e) := by
  unfold importEntry buildAdd
  have httl : entryTtl e.2.2 = .ok n := by
    unfold entryTtl
    rw [hn]
  rw [httl]
  cases hbr : _build_record e.2.2 with
  | error err => simp [Bind.bind, Except.bind, Except.map]
  | ok b =>
    simp only [Bind.bind, Except.bind]
    rw [hfresh]
    cases har : _add_record { name := rstripDot e.1, type := e.2.1, ttl := n } b e.2.1 (isListType e.2.1) with
    | error err2 => simp [har, Except.map]
    | ok rs1 => simp [har, Except.map, pure, Except.pure]

/-- One cell of the nested dictionary: a record-set name, a record type, and
the entries stored under them. -/
abbrev ZoneCell := String × String × List ZoneEntry

/-- The cells of the nested dictionary in iteration order. -/
def zoneCells (records : ZoneRecords) : List ZoneCell :=
  records.flatMap (fun nm => nm.2.map (fun tp => (nm.1, tp.1, tp.2)))

/-- The flattened entries of one cell. -/
def cellEntries (c : ZoneCell) : List (String × String × ZoneEntry) :=
  c.2.2.map (fun e => (c.1, c.2.1, e))

/-- The record_sets key of a cell: the concatenation of the lowercased name
and the type. -/
def cellKey (c : ZoneCell) : String :=
  lowerString c.1 ++ c.2.1

/-- The record set a cell produces: created from the first entry's ttl with
the rstripped name and the type, then every entry's record added in order. -/
def cellSet (c : ZoneCell) : Except PyErr RecordSet :=
  match c.2.2 with
  | [] => .error .modelMismatch
  | e1 :: _ =>
    match entryTtl e1 with
    | .ok n1 => List.foldlM buildAdd { name := rstripDot c.1, type := c.2.1, ttl := n1 } (cellEntries c)
    | .error err => .error err

/-- An entry whose ttl field holds an int. -/
def hasIntTtl (e : ZoneEntry) : Bool :=
  match entryGet e "ttl" with
  | some (.int _) => true
  | _ => false

/-- Helper: hasIntTtl gives the int ttl. -/
theorem hasIntTtl_spec (e : ZoneEntry) (h : hasIntTtl e = true) :
    ∃ n, entryGet e "ttl" = some (ZVal.int n) := by
  unfold hasIntTtl at h
  split at h
  · next n heq => exact ⟨n, heq⟩
  · exact absurd h (by simp)

/-- Helper: processing one nonempty cell with a fresh key appends its record
set (or stops with its error). -/
theorem processCell_fresh (c : ZoneCell) (g : List (String × RecordSet))
    (hne : c.2.2 ≠ []) (httl : ∀ e ∈ c.2.2, hasIntTtl e = true)
    (hfresh : odGet g (cellKey c) = none) :
    List.foldlM importEntry g (cellEntries c)
      = Except.map (fun rs => g ++ [(cellKey c, rs)]) (cellSet c) := by
  obtain ⟨e1, rest, hsplit⟩ : ∃ e1 rest, c.2.2 = e1 :: rest := by
    cases hc : c.2.2 with
    | nil => exact absurd hc hne
    | cons x xs => exact ⟨x, xs, rfl⟩
  obtain ⟨n1, hn1⟩ := hasIntTtl_spec e1 (httl e1 (by simp [hsplit]))
  have hentries : cellEntries c = (c.1, c.2.1, e1) :: rest.map (fun e => (c.1, c.2.1, e)) := by
    rw [cellEntries, hsplit]
    rfl
  have httl1 : entryTtl e1 = .ok n1 := by
    unfold entryTtl
    rw [hn1]
  have hcell : cellSet c
      = List.foldlM buildAdd { name := rstripDot c.1, type := c.2.1, ttl := n1 } (cellEntries c) := by
    unfold cellSet
    simp only [hsplit, httl1]
  rw [hentries, hcell, List.foldlM_cons]
  rw [importEntry_create g (c.1, c.2.1, e1) n1 hn1 hfresh]
  rw [show (lowerString (c.1, c.2.1, e1).1 ++ (c.1, c.2.1, e1).2.1) = cellKey c from rfl]
  rw [hentries, List.foldlM_cons]
  cases hb : buildAdd { name := rstripDot c.1, type := c.2.1, ttl := n1 } (c.1, c.2.1, e1) with
  | error err => simp [Bind.bind, Except.bind, Except.map]
  | ok rs1 =>
    simp only [Except.map, Bind.bind, Except.bind]
    exact importEntries_acc_append _ g (cellKey c) rs1
      (by
        intro x hx
        simp only [List.mem_map] at hx
        obtain ⟨e, he, rfl⟩ := hx
        rfl)
      (by
        intro x hx
        simp only [List.mem_map] at hx
        obtain ⟨e, he, rfl⟩ := hx
        exact hasIntTtl_spec e (httl e (by simp [hsplit, he])))
      hfresh

/-- The key-and-record-set pair a single cell contributes to record_sets. -/
def cellPair (c : ZoneCell) : Except PyErr (String × RecordSet) :=
  match cellSet c with
  | .error e => .error e
  | .ok rs => .ok (cellKey c, rs)

/-- Helper: processing a run of cells with pairwise distinct fresh keys
appends one record set per cell (or stops at the first failing cell). -/
theorem processCells (cs : List ZoneCell) : ∀ g : List (String × RecordSet),
    (∀ c ∈ cs, c.2.2 ≠ []) →
    (∀ c ∈ cs, ∀ e ∈ c.2.2, hasIntTtl e = true) →
    (cs.map cellKey).Nodup →
    (∀ c ∈ cs, odGet g (cellKey c) = none) →
    List.foldlM importEntry g (cs.flatMap cellEntries)
      = Except.map (fun l => g ++ l)
          (exceptMapList cellPair cs) := by
  induction cs with
  | nil =>
    intro g _ _ _ _
    simp [Except.map, exceptMapList]
    rfl
  | cons c cs ih =>
    intro g hne httl hnodup hfresh
    have hnodup2 : cellKey c ∉ cs.map cellKey ∧ (cs.map cellKey).Nodup :=
      List.nodup_cons.mp (by simpa using hnodup)
    rw [show (c :: cs).flatMap cellEntries = cellEntries c ++ cs.flatMap cellEntries from by
      simp [List.flatMap_cons]]
    rw [List.foldlM_append]
    rw [processCell_fresh c g (hne c (by simp)) (httl c (by simp)) (hfresh c (by simp))]
    cases hc : cellSet c with
    | error err => simp [Except.map, Bind.bind, Except.bind, exceptMapList, cellPair, hc]
    | ok rsc =>
      have hfresh2 : ∀ c2 ∈ cs, odGet (g ++ [(cellKey c, rsc)]) (cellKey c2) = none := by
        intro c2 hc2
        rw [odGet_append_left _ _ _ (hfresh c2 (by simp [hc2]))]
        have hne2 : ¬(cellKey c == cellKey c2) = true := by
          simp only [beq_iff_eq]
          intro heq
          exact hnodup2.1 (heq ▸ List.mem_map_of_mem cellKey hc2)
        simp [odGet, List.find?, hne2]
      have hihres := ih (g ++ [(cellKey c, rsc)]) (fun x hx => hne x (by simp [hx]))
        (fun x hx => httl x (by simp [hx])) hnodup2.2 hfresh2
      cases hrest : exceptMapList cellPair cs with
      | error err =>
        rw [hrest] at hihres
        simp [hc, hihres, Except.map, Bind.bind, Except.bind, exceptMapList, cellPair, hrest]
      | ok rest =>
        rw [hrest] at hihres
        simp [hc, hihres, Except.map, Bind.bind, Except.bind, pure, Except.pure,
          exceptMapList, cellPair, hrest, List.append_assoc]

/-- Helper: the flattened zone is the concatenation of its cells' entries. -/
theorem flattenZone_cells (records : ZoneRecords) :
    flattenZone records = (zoneCells records).flatMap cellEntries := by
  unfold flattenZone zoneCells
  induction records with
  | nil => rfl
  | cons nm rest ih =>
    simp only [List.flatMap_cons, List.flatMap_append, ih]
    congr 1
    induction nm.2 with
    | nil => rfl
    | cons tp tps ih2 =>
      simp only [List.flatMap_cons, List.map_cons, ih2]
      rfl

/-- Helper: import_zone's grouping loop, characterized cell by cell: with
nonempty cells, int ttl fields, and pairwise distinct concatenated keys, the
record_sets dict pairs each cell's key with its record set, in cell order. -/
theorem importGroups_eq (records : ZoneRecords)
    (hne : ∀ c ∈ zoneCells records, c.2.2 ≠ [])
    (httl : ∀ c ∈ zoneCells records, ∀ e ∈ c.2.2, hasIntTtl e = true)
    (hnodup : ((zoneCells records).map cellKey).Nodup) :
    importGroups records
      = exceptMapList cellPair (zoneCells records) := by
  unfold importGroups
  rw [flattenZone_cells]
  rw [processCells (zoneCells records) [] hne httl hnodup (fun c _ => rfl)]
  cases hm : exceptMapList cellPair (zoneCells records) with
  | error err => rfl
  | ok l => simp [Except.map]

/-- Helper: _add_record leaves the record set's name, type and ttl alone. -/
theorem add_record_frame (rs : RecordSet) (r : BuiltRecord) (tp : String) (il : Bool)
    (rs2 : RecordSet) (h : _add_record rs r tp il = .ok rs2) :
    rs2.name = rs.name ∧ rs2.type = rs.type ∧ rs2.ttl = rs.ttl := by
  unfold _add_record at h
  split at h
  · exact Except.noConfusion h
  · split at h
    · split at h <;>
        first
        | exact Except.noConfusion h
        | (simp only [Except.ok.injEq] at h; subst h; exact ⟨rfl, rfl, rfl⟩)
    · split at h <;>
        first
        | exact Except.noConfusion h
        | (simp only [Except.ok.injEq] at h; subst h; exact ⟨rfl, rfl, rfl⟩)

/-- Helper: buildAdd leaves the record set's name, type and ttl alone. -/
theorem buildAdd_frame (acc : RecordSet) (e : String × String × ZoneEntry) (rs2 : RecordSet)
    (h : buildAdd acc e = .ok rs2) :
    rs2.name = acc.name ∧ rs2.type = acc.type ∧ rs2.ttl = acc.ttl := by
  unfold buildAdd at h
  cases hbr : _build_record e.2.2 with
  | error err =>
    rw [hbr] at h
    exact Except.noConfusion h
  | ok b =>
    rw [hbr] at h
    simp only [Bind.bind, Except.bind] at h
    exact add_record_frame acc b e.2.1 (isListType e.2.1) rs2 h

/-- Helper: a buildAdd fold leaves the record set's name, type and ttl alone. -/
theorem buildAdd_fold_frame (es : List (String × String × ZoneEntry)) :
    ∀ (acc rs : RecordSet), List.foldlM buildAdd acc es = .ok rs →
    rs.name = acc.name ∧ rs.type = acc.type ∧ rs.ttl = acc.ttl := by
  induction es with
  | nil =>
    intro acc rs h
    simp only [List.foldlM_nil, pure, Except.pure, Except.ok.injEq] at h
    subst h
    exact ⟨rfl, rfl, rfl⟩
  | cons e es ih =>
    intro acc rs h
    rw [List.foldlM_cons] at h
    cases hb : buildAdd acc e with
    | error err =>
      rw [hb] at h
      simp [Bind.bind, Except.bind] at h
    | ok acc2 =>
      rw [hb] at h
      simp only [Bind.bind, Except.bind] at h
      obtain ⟨h1, h2, h3⟩ := ih acc2 rs h
      obtain ⟨g1, g2, g3⟩ := buildAdd_frame acc e acc2 hb
      exact ⟨h1.trans g1, h2.trans g2, h3.trans g3⟩

/-- Helper: a successful cellSet carries the rstripped name, the cell's type,
and the ttl of the cell's first entry. -/
theorem cellSet_frame (c : ZoneCell) (rs : RecordSet) (h : cellSet c = .ok rs) :
    rs.name = rstripDot c.1 ∧ rs.type = c.2.1
    ∧ ∃ e1 rest, c.2.2 = e1 :: rest ∧ entryTtl e1 = .ok rs.ttl := by
  unfold cellSet at h
  split at h
  · exact Except.noConfusion h
  · next e1 rest heq =>
    split at h
    · next n1 httl1 =>
      obtain ⟨h1, h2, h3⟩ := buildAdd_fold_frame (cellEntries c) _ rs h
      exact ⟨h1, h2, e1, rest, heq, by rw [show rs.ttl = n1 from h3]; exact httl1⟩
    · exact Except.noConfusion h

/-- Helper: a successful prepareForSubmit renames the origin-named set to the
root label, keeps every other name, and lowers the type. -/
theorem prepareForSubmit_shape (origin : String) (rs rs2 : RecordSet)
    (h : prepareForSubmit origin rs = .ok rs2) :
    rs2.name = (if rs.name == origin then "@" else rs.name)
    ∧ rs2.type = lowerString rs.type := by
  simp only [prepareForSubmit] at h
  split at h <;>
    split at h <;>
      first
        | exact Except.noConfusion h
        | (split at h <;>
            first
              | exact Except.noConfusion h
              | (simp only [Except.ok.injEq] at h
                 subst h
                 simp_all))

/-- C4 (amended): import_zone groups record entries into record sets keyed by
the CONCATENATION of the lower-cased record-set name and the record type (not
the pair): with nonempty cells, int ttls, and pairwise distinct concatenated
keys, the grouping loop pairs each cell's concatenated key with its record
set, in cell order; the first entry of each group fixes the record set's ttl
(and the cell fixes its name and type); soa and cname types are flagged
scalar, the seven other known types list, and _add_record stores a scalar
type's record into its single property while a list type's record is appended
to the accumulated list; the record set whose name equals the zone origin is
renamed to the root label before submission. -/
theorem import_grouping_amended (records : ZoneRecords)
    (hne : ∀ c ∈ zoneCells records, c.2.2 ≠ [])
    (httl : ∀ c ∈ zoneCells records, ∀ e ∈ c.2.2, hasIntTtl e = true)
    (hnodup : ((zoneCells records).map cellKey).Nodup) :
    importGroups records = exceptMapList cellPair (zoneCells records)
    ∧ (∀ c ∈ zoneCells records, cellKey c = lowerString c.1 ++ c.2.1)
    ∧ (∀ c ∈ zoneCells records, ∀ rs, cellSet c = .ok rs →
        rs.name = rstripDot c.1 ∧ rs.type = c.2.1
        ∧ ∃ e1 rest, c.2.2 = e1 :: rest ∧ entryTtl e1 = .ok rs.ttl)
    ∧ isListType "soa" = false
    ∧ isListType "cname" = false
    ∧ (∀ tp ∈ ["a", "aaaa", "mx", "ns", "ptr", "srv", "txt"], isListType tp = true)
    ∧ (∀ rs r, _add_record rs (.soa r) "soa" false = .ok { rs with soa_record := some r })
    ∧ (∀ rs r, _add_record rs (.cname r) "cname" false = .ok { rs with cname_record := some r })
    ∧ (∀ rs r, _add_record rs (.a r) "a" true
        = .ok { rs with arecords := some (rs.arecords.getD [] ++ [r]) })
    ∧ (∀ rs r, _add_record rs (.aaaa r) "aaaa" true
        = .ok { rs with aaaa_records := some (rs.aaaa_records.getD [] ++ [r]) })
    ∧ (∀ rs r, _add_record rs (.mx r) "mx" true
        = .ok { rs with mx_records := some (rs.mx_records.getD [] ++ [r]) })
    ∧ (∀ rs r, _add_record rs (.ns r) "ns" true
        = .ok { rs with ns_records := some (rs.ns_records.getD [] ++ [r]) })
    ∧ (∀ rs r, _add_record rs (.ptr r) "ptr" true
        = .ok { rs with ptr_records := some (rs.ptr_records.getD [] ++ [r]) })
    ∧ (∀ rs r, _add_record rs (.srv r) "srv" true
        = .ok { rs with srv_records := some (rs.srv_records.getD [] ++ [r]) })
    ∧ (∀ rs r, _add_record rs (.txt r) "txt" true
        = .ok { rs with txt_records := some (rs.txt_records.getD [] ++ [r]) })
    ∧ (∀ origin rs rs2, prepareForSubmit origin rs = .ok rs2 →
        rs2.name = (if rs.name == origin then "@" else rs.name)) := by
  refine ⟨importGroups_eq records hne httl hnodup, fun c _ => rfl, ?_, rfl, rfl, ?_,
    fun rs r => rfl, fun rs r => rfl, fun rs r => rfl, fun rs r => rfl, fun rs r => rfl,
    fun rs r => rfl, fun rs r => rfl, fun rs r => rfl, fun rs r => rfl, ?_⟩
  · intro c _ rs h
    exact cellSet_frame c rs h
  · intro tp htp
    fin_cases htp <;> rfl
  · intro origin rs rs2 h
    exact (prepareForSubmit_shape origin rs rs2 h).1

/-- A one-cell zone object for exercising the grouping loop. -/
def wRecords : ZoneRecords :=
  [("www", [("a", [[("ttl", ZVal.int 3600), ("type", ZVal.str "a"), ("ip", ZVal.str "1.2.3.4")]])])]

/-- C4 witness: the amended grouping characterization at the concrete one-cell
zone above, whose hypotheses hold by computation, with the grouped record_sets
dict also computed in full. -/
theorem import_grouping_amended_witness :
    (∀ c ∈ zoneCells wRecords, c.2.2 ≠ [])
    ∧ (∀ c ∈ zoneCells wRecords, ∀ e ∈ c.2.2, hasIntTtl e = true)
    ∧ ((zoneCells wRecords).map cellKey).Nodup
    ∧ importGroups wRecords = exceptMapList cellPair (zoneCells wRecords)
    ∧ importGroups wRecords
      = .ok [("wwwa", { name := "www", type := "a", ttl := 3600, arecords := some [⟨"1.2.3.4"⟩] })] :=
  ⟨by decide, by decide, by decide,
   (import_grouping_amended wRecords (by decide) (by decide) (by decide)).1, by rfl⟩

/-- The lowered type suffix of a record set, defaulting to the raw type when
the suffix cannot be resolved. -/
def typeKey (rs : RecordSet) : String :=
  match typeSuffixLower rs.type with
  | .ok rt => rt
  | .error _ => rs.type

/-- A record set with its type replaced by the lowered type suffix: the shape
in which a roundtrip through the zone file can reproduce it. -/
def normalizeSet (rs : RecordSet) : RecordSet :=
  { rs with type := typeKey rs }

/-- The concatenated record_sets key under which an exported record set is
regrouped on import. -/
def exportKey (rs : RecordSet) : String :=
  lowerString rs.name ++ typeKey rs

/-- The name and type fields the modelled zone-file parse adds to an entry. -/
def enrichEntry (nm tp : String) (e : ZoneEntry) : ZoneEntry :=
  e ++ [("type", ZVal.str tp), ("name", ZVal.str nm)]

/-- The import cell an exported record set turns into after the text
roundtrip. -/
def cellOf (rs : RecordSet) : ZoneCell :=
  (rs.name, typeKey rs, (exportRecordData rs (typeKey rs)).map (enrichEntry rs.name (typeKey rs)))

/-- The name block an exported record set contributes to the reparsed
dictionary. -/
def roundtripBlock (rs : RecordSet) : String × List (String × List ZoneEntry) :=
  (rs.name, [(typeKey rs, (exportRecordData rs (typeKey rs)).map (enrichEntry rs.name (typeKey rs)))])

/-- Every record property other than the one matching the lowered type is
unset (the soa property always, soa sets being excluded from a clean
roundtrip). -/
def noneExcept (rs : RecordSet) (rt : String) : Bool :=
  match rt with
  | "a" => rs.aaaa_records.isNone && rs.cname_record.isNone && rs.mx_records.isNone
      && rs.ns_records.isNone && rs.ptr_records.isNone && rs.soa_record.isNone
      && rs.srv_records.isNone && rs.txt_records.isNone
  | "aaaa" => rs.arecords.isNone && rs.cname_record.isNone && rs.mx_records.isNone
      && rs.ns_records.isNone && rs.ptr_records.isNone && rs.soa_record.isNone
      && rs.srv_records.isNone && rs.txt_records.isNone
  | "cname" => rs.arecords.isNone && rs.aaaa_records.isNone && rs.mx_records.isNone
      && rs.ns_records.isNone && rs.ptr_records.isNone && rs.soa_record.isNone
      && rs.srv_records.isNone && rs.txt_records.isNone
  | "mx" => rs.arecords.isNone && rs.aaaa_records.isNone && rs.cname_record.isNone
      && rs.ns_records.isNone && rs.ptr_records.isNone && rs.soa_record.isNone
      && rs.srv_records.isNone && rs.txt_records.isNone
  | "ns" => rs.arecords.isNone && rs.aaaa_records.isNone && rs.cname_record.isNone
      && rs.mx_records.isNone && rs.ptr_records.isNone && rs.soa_record.isNone
      && rs.srv_records.isNone && rs.txt_records.isNone
  | "ptr" => rs.arecords.isNone && rs.aaaa_records.isNone && rs.cname_record.isNone
      && rs.mx_records.isNone && rs.ns_records.isNone && rs.soa_record.isNone
      && rs.srv_records.isNone && rs.txt_records.isNone
  | "srv" => rs.arecords.isNone && rs.aaaa_records.isNone && rs.cname_record.isNone
      && rs.mx_records.isNone && rs.ns_records.isNone && rs.ptr_records.isNone
      && rs.soa_record.isNone && rs.txt_records.isNone
  | "txt" => rs.arecords.isNone && rs.aaaa_records.isNone && rs.cname_record.isNone
      && rs.mx_records.isNone && rs.ns_records.isNone && rs.ptr_records.isNone
      && rs.soa_record.isNone && rs.srv_records.isNone
  | _ => false

/-- The record property matching the lowered type is populated; for txt every
record's value is a single string, the shape the space-joining export keeps
intact. -/
def propNonempty (rs : RecordSet) (rt : String) : Bool :=
  match rt with
  | "a" => !(rs.arecords.getD []).isEmpty
  | "aaaa" => !(rs.aaaa_records.getD []).isEmpty
  | "cname" => rs.cname_record.isSome
  | "mx" => !(rs.mx_records.getD []).isEmpty
  | "ns" => !(rs.ns_records.getD []).isEmpty
  | "ptr" => !(rs.ptr_records.getD []).isEmpty
  | "srv" => !(rs.srv_records.getD []).isEmpty
  | "txt" => !(rs.txt_records.getD []).isEmpty
      && (rs.txt_records.getD []).all (fun r => r.value.length == 1)
  | _ => false

/-- A record set the zone transform can roundtrip: resolvable non-soa type,
dot-free name different from the root label, the zone name and the zone_obj
directive keys ($origin, resource-group, zone-name, datetime, $ttl — names
colliding with them make the export raise TypeError), exactly the matching
record property populated, txt values single strings. This is the comparison
shape for the bidirectionality claim, written from the spec's notion of the
nested dictionary; the counterexample shows it cannot be widened to
multi-string txt values. -/
def exportWellFormedB (zone_name : String) (rs : RecordSet) : Bool :=
  match typeSuffixLower rs.type with
  | .ok rt =>
    rstripDot rs.name == rs.name && !(rs.name == "@") && !(rs.name == zone_name)
    && !(rs.name == "$origin") && !(rs.name == "resource-group") && !(rs.name == "zone-name")
    && !(rs.name == "datetime") && !(rs.name == "$ttl")
    && noneExcept rs rt && propNonempty rs rt
  | .error _ => false

/-- Helper: the components of export well-formedness. -/
theorem wf_unpack (zone_name : String) (rs : RecordSet)
    (h : exportWellFormedB zone_name rs = true) :
    typeSuffixLower rs.type = .ok (typeKey rs)
    ∧ rstripDot rs.name = rs.name
    ∧ (rs.name == "@") = false
    ∧ (rs.name == zone_name) = false
    ∧ rs.name ∉ (["$origin", "resource-group", "zone-name", "datetime", "$ttl"] : List String)
    ∧ typeKey rs ∈ ["a", "aaaa", "cname", "mx", "ns", "ptr", "srv", "txt"]
    ∧ propNonempty rs (typeKey rs) = true
    ∧ noneExcept rs (typeKey rs) = true := by
  unfold exportWellFormedB at h
  split at h
  · next rt heq =>
    have hkey : typeKey rs = rt := by
      unfold typeKey
      rw [heq]
    simp only [Bool.and_eq_true, beq_iff_eq, Bool.not_eq_eq_eq_not, Bool.not_true] at h
    obtain ⟨⟨⟨⟨⟨⟨⟨⟨⟨hname, hat⟩, hzone⟩, hd1⟩, hd2⟩, hd3⟩, hd4⟩, hd5⟩, hnone⟩, hprop⟩ := h
    have hnotin : rs.name ∉ (["$origin", "resource-group", "zone-name", "datetime", "$ttl"] : List String) := by
      intro hmem2
      simp only [List.mem_cons, List.not_mem_nil, or_false] at hmem2
      rcases hmem2 with h9 | h9 | h9 | h9 | h9
      · rw [h9] at hd1
        simp at hd1
      · rw [h9] at hd2
        simp at hd2
      · rw [h9] at hd3
        simp at hd3
      · rw [h9] at hd4
        simp at hd4
      · rw [h9] at hd5
        simp at hd5
    subst hkey
    refine ⟨heq, hname, hat, hzone, hnotin, ?_, hprop, hnone⟩
    unfold propNonempty at hprop
    split at hprop <;> simp_all
  · exact absurd h (by simp)

/-- Helper: a populated matching property makes the exported record data
nonempty. -/
theorem exportData_nonempty (rs : RecordSet) (rt : String)
    (hrt : rt ∈ ["a", "aaaa", "cname", "mx", "ns", "ptr", "srv", "txt"])
    (h : propNonempty rs rt = true) : exportRecordData rs rt ≠ [] := by
  fin_cases hrt
  · intro hc
    simp only [propNonempty] at h
    simp only [exportRecordData, List.map_eq_nil_iff] at hc
    rw [hc] at h
    simp at h
  · intro hc
    simp only [propNonempty] at h
    simp only [exportRecordData, List.map_eq_nil_iff] at hc
    rw [hc] at h
    simp at h
  · intro hc
    simp only [propNonempty] at h
    rcases Option.isSome_iff_exists.mp h with ⟨r, hr⟩
    simp [exportRecordData, hr] at hc
  · intro hc
    simp only [propNonempty] at h
    simp only [exportRecordData, List.map_eq_nil_iff] at hc
    rw [hc] at h
    simp at h
  · intro hc
    simp only [propNonempty] at h
    simp only [exportRecordData, List.map_eq_nil_iff] at hc
    rw [hc] at h
    simp at h
  · intro hc
    simp only [propNonempty] at h
    simp only [exportRecordData, List.map_eq_nil_iff] at hc
    rw [hc] at h
    simp at h
  · intro hc
    simp only [propNonempty] at h
    simp only [exportRecordData, List.map_eq_nil_iff] at hc
    rw [hc] at h
    simp at h
  · intro hc
    simp only [propNonempty, Bool.and_eq_true] at h
    obtain ⟨h1, h2⟩ := h
    simp only [exportRecordData, List.map_eq_nil_iff] at hc
    rw [hc] at h1
    simp at h1

/-- Helper: a nonempty cell's record set is the buildAdd fold started from the
first entry's ttl, the rstripped name and the cell type. -/
theorem cellSet_eq (c : ZoneCell) (e1 : ZoneEntry) (rest : List ZoneEntry)
    (hsplit : c.2.2 = e1 :: rest) (n1 : Int) (httl1 : entryTtl e1 = .ok n1) :
    cellSet c = List.foldlM buildAdd { name := rstripDot c.1, type := c.2.1, ttl := n1 }
      (cellEntries c) := by
  unfold cellSet
  simp only [hsplit, httl1]

/-- Helper: folding the reparsed a entries appends the records to the arecords
property. -/
theorem buildAdd_a_fold (nm : String) (ttl : Int) (l : List ARecord) :
    ∀ (acc : RecordSet) (l0 : List ARecord), acc.arecords = some l0 →
    List.foldlM buildAdd acc (l.map (fun r =>
      (nm, "a", enrichEntry nm "a" [("ttl", ZVal.int ttl), ("ip", ZVal.str r.ipv4_address)])))
      = .ok { acc with arecords := some (l0 ++ l) } := by
  induction l with
  | nil =>
    intro acc l0 h
    simp only [List.map_nil, List.foldlM_nil, List.append_nil, ← h]
    rfl
  | cons r l ih =>
    intro acc l0 h
    simp only [List.map_cons, List.foldlM_cons]
    have hb : buildAdd acc (nm, "a", enrichEntry nm "a" [("ttl", ZVal.int ttl), ("ip", ZVal.str r.ipv4_address)])
        = .ok { acc with arecords := some (acc.arecords.getD [] ++ [r]) } := rfl
    rw [hb]
    simp only [h, Option.getD_some, Bind.bind, Except.bind]
    rw [ih { acc with arecords := some (l0 ++ [r]) } (l0 ++ [r]) rfl]
    simp [List.append_assoc]

/-- Helper: folding the reparsed aaaa entries appends the records to the aaaa_records
property. -/
theorem buildAdd_aaaa_fold (nm : String) (ttl : Int) (l : List AaaaRecord) :
    ∀ (acc : RecordSet) (l0 : List AaaaRecord), acc.aaaa_records = some l0 →
    List.foldlM buildAdd acc (l.map (fun r =>
      (nm, "aaaa", enrichEntry nm "aaaa" [("ttl", ZVal.int ttl), ("ip", ZVal.str r.ipv6_address)])))
      = .ok { acc with aaaa_records := some (l0 ++ l) } := by
  induction l with
  | nil =>
    intro acc l0 h
    simp only [List.map_nil, List.foldlM_nil, List.append_nil, ← h]
    rfl
  | cons r l ih =>
    intro acc l0 h
    simp only [List.map_cons, List.foldlM_cons]
    have hb : buildAdd acc (nm, "aaaa", enrichEntry nm "aaaa" [("ttl", ZVal.int ttl), ("ip", ZVal.str r.ipv6_address)])
        = .ok { acc with aaaa_records := some (acc.aaaa_records.getD [] ++ [r]) } := rfl
    rw [hb]
    simp only [h, Option.getD_some, Bind.bind, Except.bind]
    rw [ih { acc with aaaa_records := some (l0 ++ [r]) } (l0 ++ [r]) rfl]
    simp [List.append_assoc]

/-- Helper: folding the reparsed mx entries appends the records to the mx_records
property. -/
theorem buildAdd_mx_fold (nm : String) (ttl : Int) (l : List MxRecord) :
    ∀ (acc : RecordSet) (l0 : List MxRecord), acc.mx_records = some l0 →
    List.foldlM buildAdd acc (l.map (fun r =>
      (nm, "mx", enrichEntry nm "mx" [("ttl", ZVal.int ttl), ("preference", ZVal.int r.preference), ("host", ZVal.str r.exchange)])))
      = .ok { acc with mx_records := some (l0 ++ l) } := by
  induction l with
  | nil =>
    intro acc l0 h
    simp only [List.map_nil, List.foldlM_nil, List.append_nil, ← h]
    rfl
  | cons r l ih =>
    intro acc l0 h
    simp only [List.map_cons, List.foldlM_cons]
    have hb : buildAdd acc (nm, "mx", enrichEntry nm "mx" [("ttl", ZVal.int ttl), ("preference", ZVal.int r.preference), ("host", ZVal.str r.exchange)])
        = .ok { acc with mx_records := some (acc.mx_records.getD [] ++ [r]) } := rfl
    rw [hb]
    simp only [h, Option.getD_some, Bind.bind, Except.bind]
    rw [ih { acc with mx_records := some (l0 ++ [r]) } (l0 ++ [r]) rfl]
    simp [List.append_assoc]

/-- Helper: folding the reparsed ns entries appends the records to the ns_records
property. -/
theorem buildAdd_ns_fold (nm : String) (ttl : Int) (l : List NsRecord) :
    ∀ (acc : RecordSet) (l0 : List NsRecord), acc.ns_records = some l0 →
    List.foldlM buildAdd acc (l.map (fun r =>
      (nm, "ns", enrichEntry nm "ns" [("ttl", ZVal.int ttl), ("host", ZVal.str r.nsdname)])))
      = .ok { acc with ns_records := some (l0 ++ l) } := by
  induction l with
  | nil =>
    intro acc l0 h
    simp only [List.map_nil, List.foldlM_nil, List.append_nil, ← h]
    rfl
  | cons r l ih =>
    intro acc l0 h
    simp only [List.map_cons, List.foldlM_cons]
    have hb : buildAdd acc (nm, "ns", enrichEntry nm "ns" [("ttl", ZVal.int ttl), ("host", ZVal.str r.nsdname)])
        = .ok { acc with ns_records := some (acc.ns_records.getD [] ++ [r]) } := rfl
    rw [hb]
    simp only [h, Option.getD_some, Bind.bind, Except.bind]
    rw [ih { acc with ns_records := some (l0 ++ [r]) } (l0 ++ [r]) rfl]
    simp [List.append_assoc]

/-- Helper: folding the reparsed ptr entries appends the records to the ptr_records
property. -/
theorem buildAdd_ptr_fold (nm : String) (ttl : Int) (l : List PtrRecord) :
    ∀ (acc : RecordSet) (l0 : List PtrRecord), acc.ptr_records = some l0 →
    List.foldlM buildAdd acc (l.map (fun r =>
      (nm, "ptr", enrichEntry nm "ptr" [("ttl", ZVal.int ttl), ("host", ZVal.str r.ptrdname)])))
      = .ok { acc with ptr_records := some (l0 ++ l) } := by
  induction l with
  | nil =>
    intro acc l0 h
    simp only [List.map_nil, List.foldlM_nil, List.append_nil, ← h]
    rfl
  | cons r l ih =>
    intro acc l0 h
    simp only [List.map_cons, List.foldlM_cons]
    have hb : buildAdd acc (nm, "ptr", enrichEntry nm "ptr" [("ttl", ZVal.int ttl), ("host", ZVal.str r.ptrdname)])
        = .ok { acc with ptr_records := some (acc.ptr_records.getD [] ++ [r]) } := rfl
    rw [hb]
    simp only [h, Option.getD_some, Bind.bind, Except.bind]
    rw [ih { acc with ptr_records := some (l0 ++ [r]) } (l0 ++ [r]) rfl]
    simp [List.append_assoc]

/-- Helper: folding the reparsed srv entries appends the records to the srv_records
property. -/
theorem buildAdd_srv_fold (nm : String) (ttl : Int) (l : List SrvRecord) :
    ∀ (acc : RecordSet) (l0 : List SrvRecord), acc.srv_records = some l0 →
    List.foldlM buildAdd acc (l.map (fun r =>
      (nm, "srv", enrichEntry nm "srv" [("ttl", ZVal.int ttl), ("priority", ZVal.int r.priority), ("weight", ZVal.int r.weight), ("port", ZVal.int r.port), ("target", ZVal.str r.target)])))
      = .ok { acc with srv_records := some (l0 ++ l) } := by
  induction l with
  | nil =>
    intro acc l0 h
    simp only [List.map_nil, List.foldlM_nil, List.append_nil, ← h]
    rfl
  | cons r l ih =>
    intro acc l0 h
    simp only [List.map_cons, List.foldlM_cons]
    have hb : buildAdd acc (nm, "srv", enrichEntry nm "srv" [("ttl", ZVal.int ttl), ("priority", ZVal.int r.priority), ("weight", ZVal.int r.weight), ("port", ZVal.int r.port), ("target", ZVal.str r.target)])
        = .ok { acc with srv_records := some (acc.srv_records.getD [] ++ [r]) } := rfl
    rw [hb]
    simp only [h, Option.getD_some, Bind.bind, Except.bind]
    rw [ih { acc with srv_records := some (l0 ++ [r]) } (l0 ++ [r]) rfl]
    simp [List.append_assoc]

/-- Helper: folding the reparsed txt entries appends the records to the
txt_records property, the space-join being invisible on single-string
values. -/
theorem buildAdd_txt_fold (nm : String) (ttl : Int) (l : List TxtRecord) :
    ∀ (acc : RecordSet) (l0 : List TxtRecord), acc.txt_records = some l0 →
    (∀ r ∈ l, ∃ s, r.value = [s]) →
    List.foldlM buildAdd acc (l.map (fun r =>
      (nm, "txt", enrichEntry nm "txt"
        [("ttl", ZVal.int ttl), ("txt", ZVal.str (String.intercalate " " r.value))])))
      = .ok { acc with txt_records := some (l0 ++ l) } := by
  induction l with
  | nil =>
    intro acc l0 h _
    simp only [List.map_nil, List.foldlM_nil, List.append_nil, ← h]
    rfl
  | cons r l ih =>
    intro acc l0 h hval
    obtain ⟨s, hs⟩ := hval r (by simp)
    cases r with
    | mk rv =>
      have hs2 : rv = [s] := hs
      subst hs2
      simp only [List.map_cons, List.foldlM_cons]
      have hb : buildAdd acc (nm, "txt", enrichEntry nm "txt"
          [("ttl", ZVal.int ttl), ("txt", ZVal.str (String.intercalate " " (TxtRecord.mk [s]).value))])
          = .ok { acc with txt_records := some (acc.txt_records.getD [] ++ [TxtRecord.mk [s]]) } := rfl
      rw [hb]
      simp only [h, Option.getD_some, Bind.bind, Except.bind]
      rw [ih { acc with txt_records := some (l0 ++ [TxtRecord.mk [s]]) } (l0 ++ [TxtRecord.mk [s]]) rfl
        (fun x hx => hval x (by simp [hx]))]
      simp [List.append_assoc]

/-- Helper: a well-formed record set's import cell rebuilds exactly the record
set, with the type replaced by its lowered suffix. -/
theorem cellSet_of_wf (zone_name : String) (rs : RecordSet)
    (hwf : exportWellFormedB zone_name rs = true) :
    cellSet (cellOf rs) = .ok (normalizeSet rs) := by
  obtain ⟨nm, tp, ttl, ar, a4, cn, mxl, nsl, pl, sol, svl, txl⟩ := rs
  obtain ⟨htk, hname, hat, hzone, _, hmem, hprop, hnone⟩ := wf_unpack zone_name _ hwf
  simp only [List.mem_cons, List.not_mem_nil, or_false] at hmem
  rcases hmem with htp | htp | htp | htp | htp | htp | htp | htp
  · rw [htp] at hprop hnone
    simp only [propNonempty] at hprop
    simp only [noneExcept, Option.isNone_iff_eq_none, Bool.and_eq_true] at hnone
    obtain ⟨⟨⟨⟨⟨⟨⟨h2, h3⟩, h4⟩, h5⟩, h6⟩, h7⟩, h8⟩, h9⟩ := hnone
    subst h2 h3 h4 h5 h6 h7 h8 h9
    cases ar with
    | none => simp at hprop
    | some l =>
      cases l with
      | nil => simp at hprop
      | cons r1 lrest =>
        simp only [cellOf, normalizeSet, htp]
        simp only [exportRecordData, Option.getD_some, List.map_map]
        rw [cellSet_eq _ _ _ (by rfl) ttl (by rfl)]
        have hname2 : rstripDot nm = nm := hname
        rw [hname2]
        simp only [cellEntries, List.map_map, Function.comp_def, List.map_cons, List.foldlM_cons]
        have hb1 : buildAdd { name := nm, type := "a", ttl := ttl }
            (nm, "a", enrichEntry nm "a" [("ttl", ZVal.int ttl), ("ip", ZVal.str r1.ipv4_address)])
            = .ok { name := nm, type := "a", ttl := ttl, arecords := some [r1] } := rfl
        rw [hb1]
        simp only [Bind.bind, Except.bind]
        rw [buildAdd_a_fold nm ttl lrest { name := nm, type := "a", ttl := ttl, arecords := some [r1] } [r1] rfl]
        rfl
  · rw [htp] at hprop hnone
    simp only [propNonempty] at hprop
    simp only [noneExcept, Option.isNone_iff_eq_none, Bool.and_eq_true] at hnone
    obtain ⟨⟨⟨⟨⟨⟨⟨h2, h3⟩, h4⟩, h5⟩, h6⟩, h7⟩, h8⟩, h9⟩ := hnone
    subst h2 h3 h4 h5 h6 h7 h8 h9
    cases a4 with
    | none => simp at hprop
    | some l =>
      cases l with
      | nil => simp at hprop
      | cons r1 lrest =>
        simp only [cellOf, normalizeSet, htp]
        simp only [exportRecordData, Option.getD_some, List.map_map]
        rw [cellSet_eq _ _ _ (by rfl) ttl (by rfl)]
        have hname2 : rstripDot nm = nm := hname
        rw [hname2]
        simp only [cellEntries, List.map_map, Function.comp_def, List.map_cons, List.foldlM_cons]
        have hb1 : buildAdd { name := nm, type := "aaaa", ttl := ttl }
            (nm, "aaaa", enrichEntry nm "aaaa" [("ttl", ZVal.int ttl), ("ip", ZVal.str r1.ipv6_address)])
            = .ok { name := nm, type := "aaaa", ttl := ttl, aaaa_records := some [r1] } := rfl
        rw [hb1]
        simp only [Bind.bind, Except.bind]
        rw [buildAdd_aaaa_fold nm ttl lrest { name := nm, type := "aaaa", ttl := ttl, aaaa_records := some [r1] } [r1] rfl]
        rfl
  · rw [htp] at hprop hnone
    simp only [propNonempty] at hprop
    simp only [noneExcept, Option.isNone_iff_eq_none, Bool.and_eq_true] at hnone
    obtain ⟨⟨⟨⟨⟨⟨⟨h2, h3⟩, h4⟩, h5⟩, h6⟩, h7⟩, h8⟩, h9⟩ := hnone
    subst h2 h3 h4 h5 h6 h7 h8 h9
    cases cn with
    | none => simp at hprop
    | some c0 =>
      simp only [cellOf, normalizeSet, htp]
      simp only [exportRecordData, List.map_cons, List.map_nil]
      rw [cellSet_eq _ _ _ (by rfl) ttl (by rfl)]
      have hname2 : rstripDot nm = nm := hname
      rw [hname2]
      simp only [cellEntries, List.map_cons, List.map_nil, List.foldlM_cons, List.foldlM_nil]
      have hb1 : buildAdd { name := nm, type := "cname", ttl := ttl }
          (nm, "cname", enrichEntry nm "cname" [("ttl", ZVal.int ttl), ("alias", ZVal.str c0.cname)])
          = .ok { name := nm, type := "cname", ttl := ttl, cname_record := some c0 } := rfl
      rw [hb1]
      simp only [Bind.bind, Except.bind]
      rfl
  · rw [htp] at hprop hnone
    simp only [propNonempty] at hprop
    simp only [noneExcept, Option.isNone_iff_eq_none, Bool.and_eq_true] at hnone
    obtain ⟨⟨⟨⟨⟨⟨⟨h2, h3⟩, h4⟩, h5⟩, h6⟩, h7⟩, h8⟩, h9⟩ := hnone
    subst h2 h3 h4 h5 h6 h7 h8 h9
    cases mxl with
    | none => simp at hprop
    | some l =>
      cases l with
      | nil => simp at hprop
      | cons r1 lrest =>
        simp only [cellOf, normalizeSet, htp]
        simp only [exportRecordData, Option.getD_some, List.map_map]
        rw [cellSet_eq _ _ _ (by rfl) ttl (by rfl)]
        have hname2 : rstripDot nm = nm := hname
        rw [hname2]
        simp only [cellEntries, List.map_map, Function.comp_def, List.map_cons, List.foldlM_cons]
        have hb1 : buildAdd { name := nm, type := "mx", ttl := ttl }
            (nm, "mx", enrichEntry nm "mx" [("ttl", ZVal.int ttl), ("preference", ZVal.int r1.preference), ("host", ZVal.str r1.exchange)])
            = .ok { name := nm, type := "mx", ttl := ttl, mx_records := some [r1] } := rfl
        rw [hb1]
        simp only [Bind.bind, Except.bind]
        rw [buildAdd_mx_fold nm ttl lrest { name := nm, type := "mx", ttl := ttl, mx_records := some [r1] } [r1] rfl]
        rfl
  · rw [htp] at hprop hnone
    simp only [propNonempty] at hprop
    simp only [noneExcept, Option.isNone_iff_eq_none, Bool.and_eq_true] at hnone
    obtain ⟨⟨⟨⟨⟨⟨⟨h2, h3⟩, h4⟩, h5⟩, h6⟩, h7⟩, h8⟩, h9⟩ := hnone
    subst h2 h3 h4 h5 h6 h7 h8 h9
    cases nsl with
    | none => simp at hprop
    | some l =>
      cases l with
      | nil => simp at hprop
      | cons r1 lrest =>
        simp only [cellOf, normalizeSet, htp]
        simp only [exportRecordData, Option.getD_some, List.map_map]
        rw [cellSet_eq _ _ _ (by rfl) ttl (by rfl)]
        have hname2 : rstripDot nm = nm := hname
        rw [hname2]
        simp only [cellEntries, List.map_map, Function.comp_def, List.map_cons, List.foldlM_cons]
        have hb1 : buildAdd { name := nm, type := "ns", ttl := ttl }
            (nm, "ns", enrichEntry nm "ns" [("ttl", ZVal.int ttl), ("host", ZVal.str r1.nsdname)])
            = .ok { name := nm, type := "ns", ttl := ttl, ns_records := some [r1] } := rfl
        rw [hb1]
        simp only [Bind.bind, Except.bind]
        rw [buildAdd_ns_fold nm ttl lrest { name := nm, type := "ns", ttl := ttl, ns_records := some [r1] } [r1] rfl]
        rfl
  · rw [htp] at hprop hnone
    simp only [propNonempty] at hprop
    simp only [noneExcept, Option.isNone_iff_eq_none, Bool.and_eq_true] at hnone
    obtain ⟨⟨⟨⟨⟨⟨⟨h2, h3⟩, h4⟩, h5⟩, h6⟩, h7⟩, h8⟩, h9⟩ := hnone
    subst h2 h3 h4 h5 h6 h7 h8 h9
    cases pl with
    | none => simp at hprop
    | some l =>
      cases l with
      | nil => simp at hprop
      | cons r1 lrest =>
        simp only [cellOf, normalizeSet, htp]
        simp only [exportRecordData, Option.getD_some, List.map_map]
        rw [cellSet_eq _ _ _ (by rfl) ttl (by rfl)]
        have hname2 : rstripDot nm = nm := hname
        rw [hname2]
        simp only [cellEntries, List.map_map, Function.comp_def, List.map_cons, List.foldlM_cons]
        have hb1 : buildAdd { name := nm, type := "ptr", ttl := ttl }
            (nm, "ptr", enrichEntry nm "ptr" [("ttl", ZVal.int ttl), ("host", ZVal.str r1.ptrdname)])
            = .ok { name := nm, type := "ptr", ttl := ttl, ptr_records := some [r1] } := rfl
        rw [hb1]
        simp only [Bind.bind, Except.bind]
        rw [buildAdd_ptr_fold nm ttl lrest { name := nm, type := "ptr", ttl := ttl, ptr_records := some [r1] } [r1] rfl]
        rfl
  · rw [htp] at hprop hnone
    simp only [propNonempty] at hprop
    simp only [noneExcept, Option.isNone_iff_eq_none, Bool.and_eq_true] at hnone
    obtain ⟨⟨⟨⟨⟨⟨⟨h2, h3⟩, h4⟩, h5⟩, h6⟩, h7⟩, h8⟩, h9⟩ := hnone
    subst h2 h3 h4 h5 h6 h7 h8 h9
    cases svl with
    | none => simp at hprop
    | some l =>
      cases l with
      | nil => simp at hprop
      | cons r1 lrest =>
        simp only [cellOf, normalizeSet, htp]
        simp only [exportRecordData, Option.getD_some, List.map_map]
        rw [cellSet_eq _ _ _ (by rfl) ttl (by rfl)]
        have hname2 : rstripDot nm = nm := hname
        rw [hname2]
        simp only [cellEntries, List.map_map, Function.comp_def, List.map_cons, List.foldlM_cons]
        have hb1 : buildAdd { name := nm, type := "srv", ttl := ttl }
            (nm, "srv", enrichEntry nm "srv" [("ttl", ZVal.int ttl), ("priority", ZVal.int r1.priority), ("weight", ZVal.int r1.weight), ("port", ZVal.int r1.port), ("target", ZVal.str r1.target)])
            = .ok { name := nm, type := "srv", ttl := ttl, srv_records := some [r1] } := rfl
        rw [hb1]
        simp only [Bind.bind, Except.bind]
        rw [buildAdd_srv_fold nm ttl lrest { name := nm, type := "srv", ttl := ttl, srv_records := some [r1] } [r1] rfl]
        rfl
  · rw [htp] at hprop hnone
    simp only [propNonempty, Bool.and_eq_true] at hprop
    obtain ⟨hprop1, hprop2⟩ := hprop
    simp only [noneExcept, Option.isNone_iff_eq_none, Bool.and_eq_true] at hnone
    obtain ⟨⟨⟨⟨⟨⟨⟨h2, h3⟩, h4⟩, h5⟩, h6⟩, h7⟩, h8⟩, h9⟩ := hnone
    subst h2 h3 h4 h5 h6 h7 h8 h9
    cases txl with
    | none => simp at hprop1
    | some l =>
      cases l with
      | nil => simp at hprop1
      | cons r1 lrest =>
        have hval : ∀ r ∈ (r1 :: lrest), ∃ s, (r : TxtRecord).value = [s] := by
          intro r hr
          have hlen := (List.all_eq_true.mp hprop2) r hr
          cases hv : r.value with
          | nil =>
            rw [hv] at hlen
            simp at hlen
          | cons s rest2 =>
            cases rest2 with
            | nil => exact ⟨s, rfl⟩
            | cons s2 rest3 =>
              rw [hv] at hlen
              simp at hlen
        obtain ⟨s1, hs1⟩ := hval r1 (by simp)
        cases r1 with
        | mk rv1 =>
          have hs2 : rv1 = [s1] := hs1
          subst hs2
          simp only [cellOf, normalizeSet, htp]
          simp only [exportRecordData, Option.getD_some, List.map_map]
          rw [cellSet_eq _ _ _ (by rfl) ttl (by rfl)]
          have hname2 : rstripDot nm = nm := hname
          rw [hname2]
          simp only [cellEntries, List.map_map, Function.comp_def, List.map_cons, List.foldlM_cons]
          have hb1 : buildAdd { name := nm, type := "txt", ttl := ttl }
              (nm, "txt", enrichEntry nm "txt"
                [("ttl", ZVal.int ttl), ("txt", ZVal.str (String.intercalate " " (TxtRecord.mk [s1]).value))])
              = .ok { name := nm, type := "txt", ttl := ttl, txt_records := some [TxtRecord.mk [s1]] } := rfl
          rw [hb1]
          simp only [Bind.bind, Except.bind]
          rw [buildAdd_txt_fold nm ttl lrest
            { name := nm, type := "txt", ttl := ttl, txt_records := some [TxtRecord.mk [s1]] }
            [TxtRecord.mk [s1]] rfl (fun x hx => hval x (by simp [hx]))]
          rfl

/-- Helper: every exported field dictionary leads with the record set's ttl. -/
theorem exportData_ttl (rs : RecordSet) (rt : String)
    (hrt : rt ∈ ["a", "aaaa", "cname", "mx", "ns", "ptr", "srv", "txt"]) :
    ∀ e ∈ exportRecordData rs rt, entryGet e "ttl" = some (ZVal.int rs.ttl) := by
  fin_cases hrt
  · intro e he
    simp only [exportRecordData, List.mem_map] at he
    obtain ⟨r, hr, rfl⟩ := he
    rfl
  · intro e he
    simp only [exportRecordData, List.mem_map] at he
    obtain ⟨r, hr, rfl⟩ := he
    rfl
  · intro e he
    cases hc : rs.cname_record with
    | none => simp [exportRecordData, hc] at he
    | some r =>
      simp only [exportRecordData, hc, List.mem_singleton] at he
      subst he
      rfl
  · intro e he
    simp only [exportRecordData, List.mem_map] at he
    obtain ⟨r, hr, rfl⟩ := he
    rfl
  · intro e he
    simp only [exportRecordData, List.mem_map] at he
    obtain ⟨r, hr, rfl⟩ := he
    rfl
  · intro e he
    simp only [exportRecordData, List.mem_map] at he
    obtain ⟨r, hr, rfl⟩ := he
    rfl
  · intro e he
    simp only [exportRecordData, List.mem_map] at he
    obtain ⟨r, hr, rfl⟩ := he
    rfl
  · intro e he
    simp only [exportRecordData, List.mem_map] at he
    obtain ⟨r, hr, rfl⟩ := he
    rfl

/-- Helper: enriching an entry with the type and name fields keeps its int
ttl. -/
theorem hasIntTtl_enrich (nm tp : String) (e : ZoneEntry) (n : Int)
    (h : entryGet e "ttl" = some (ZVal.int n)) :
    hasIntTtl (enrichEntry nm tp e) = true := by
  unfold hasIntTtl enrichEntry
  have h2 : entryGet (e ++ [("type", ZVal.str tp), ("name", ZVal.str nm)]) "ttl"
      = some (ZVal.int n) := odGet_append_hit e _ "ttl" _ h
  rw [h2]

/-- Helper: a well-formed record set exports its nonempty block. -/
theorem exportBlock_of_wf (zone_name : String) (rs : RecordSet)
    (hwf : exportWellFormedB zone_name rs = true) :
    exportBlock rs = some (rs.name, [(typeKey rs, exportRecordData rs (typeKey rs))]) := by
  obtain ⟨htk, _, _, _, _, hmem, hprop, _⟩ := wf_unpack zone_name rs hwf
  have hdata : (exportRecordData rs (typeKey rs)).isEmpty = false := by
    cases hd : exportRecordData rs (typeKey rs) with
    | nil => exact absurd hd (exportData_nonempty rs (typeKey rs) hmem hprop)
    | cons a l => rfl
  simp only [exportBlock, htk]
  rw [if_neg (by simp [hdata])]

/-- Helper: the export dictionary of well-formed record sets, block by
block. -/
theorem exportBlocks_of_wf (zone_name : String) (sets : List RecordSet) :
    (∀ rs ∈ sets, exportWellFormedB zone_name rs = true) →
    exportBlocks sets
      = sets.map (fun rs => (rs.name, [(typeKey rs, exportRecordData rs (typeKey rs))])) := by
  induction sets with
  | nil => intro _; rfl
  | cons rs sets ih =>
    intro hwf
    have hb := exportBlock_of_wf zone_name rs (hwf rs (by simp))
    simp only [exportBlocks, List.filterMap_cons, hb, List.map_cons]
    rw [show List.filterMap exportBlock sets = exportBlocks sets from rfl]
    rw [ih (fun x hx => hwf x (by simp [hx]))]

/-- Helper: the modelled text roundtrip enriches each exported block. -/
theorem roundtrip_blocks (sets : List RecordSet) :
    zoneTextRoundtrip (sets.map (fun rs => (rs.name, [(typeKey rs, exportRecordData rs (typeKey rs))])))
      = sets.map roundtripBlock := by
  simp only [zoneTextRoundtrip, List.map_map, Function.comp_def]
  rfl

/-- Helper: the reparsed blocks flatten into one import cell per record
set. -/
theorem zoneCells_roundtrip (sets : List RecordSet) :
    zoneCells (sets.map roundtripBlock) = sets.map cellOf := by
  induction sets with
  | nil => rfl
  | cons rs sets ih =>
    have hstep : zoneCells (roundtripBlock rs :: sets.map roundtripBlock)
        = [cellOf rs] ++ zoneCells (sets.map roundtripBlock) := rfl
    simp only [List.map_cons]
    rw [hstep, ih]
    rfl

/-- Helper: with no soa blocks the origin stays the zone name. -/
theorem originAfter_of_blocks (zone_name : String) (sets : List RecordSet) :
    (∀ rs ∈ sets, typeKey rs ≠ "soa") →
    originAfter zone_name (sets.map roundtripBlock) = zone_name := by
  induction sets with
  | nil => intro _; rfl
  | cons rs sets ih =>
    intro hns
    have h1 : ¬(typeKey rs = "soa") := hns rs (by simp)
    unfold originAfter
    simp only [List.map_cons, List.foldl_cons]
    rw [show (roundtripBlock rs).2
        = [(typeKey rs, (exportRecordData rs (typeKey rs)).map (enrichEntry rs.name (typeKey rs)))]
      from rfl]
    simp only [List.foldl_cons, List.foldl_nil]
    rw [if_neg (by simp [h1])]
    have hih := ih (fun x hx => hns x (by simp [hx]))
    unfold originAfter at hih
    exact hih

/-- Helper: the grouped record sets of the roundtripped cells, set by set. -/
theorem cellPair_map_of_wf (zone_name : String) (sets : List RecordSet) :
    (∀ rs ∈ sets, exportWellFormedB zone_name rs = true) →
    exceptMapList cellPair (sets.map cellOf)
      = .ok (sets.map (fun rs => (exportKey rs, normalizeSet rs))) := by
  induction sets with
  | nil => intro _; rfl
  | cons rs sets ih =>
    intro hwf
    have hcell := cellSet_of_wf zone_name rs (hwf rs (by simp))
    simp only [List.map_cons, exceptMapList, cellPair, hcell]
    simp only [ih (fun x hx => hwf x (by simp [hx]))]
    rfl

/-- Helper: submission preparation fixes a well-formed normalized record
set. -/
theorem prepareForSubmit_of_wf (zone_name : String) (rs : RecordSet)
    (hwf : exportWellFormedB zone_name rs = true) :
    prepareForSubmit zone_name (normalizeSet rs) = .ok (normalizeSet rs) := by
  obtain ⟨_, _, hat, hzone, _, hmem, _, _⟩ := wf_unpack zone_name rs hwf
  have hlow : lowerString (typeKey rs) = typeKey rs := by
    simp only [List.mem_cons, List.not_mem_nil, or_false] at hmem
    rcases hmem with h | h | h | h | h | h | h | h <;> rw [h] <;> rfl
  simp [prepareForSubmit, normalizeSet, hlow, hat, hzone]

/-- Helper: preparing every grouped record set for submission returns the
normalized sets. -/
theorem submit_map_of_wf (zone_name : String) (sets : List RecordSet) :
    (∀ rs ∈ sets, exportWellFormedB zone_name rs = true) →
    exceptMapList (fun kv => prepareForSubmit zone_name kv.2)
        (sets.map (fun rs => (exportKey rs, normalizeSet rs)))
      = .ok (sets.map normalizeSet) := by
  induction sets with
  | nil => intro _; rfl
  | cons rs sets ih =>
    intro hwf
    have hp := prepareForSubmit_of_wf zone_name rs (hwf rs (by simp))
    simp only [List.map_cons, exceptMapList, hp]
    simp only [ih (fun x hx => hwf x (by simp [hx]))]

/-- Helper: importing the text roundtrip of a well-formed export reconstructs
the normalized record sets. -/
theorem import_of_export (zone_name : String) (sets : List RecordSet)
    (hwf : ∀ rs ∈ sets, exportWellFormedB zone_name rs = true)
    (hkeys : (sets.map exportKey).Nodup) :
    importRecordSets zone_name (zoneTextRoundtrip (exportBlocks sets))
      = .ok (sets.map normalizeSet) := by
  have hns : ∀ rs ∈ sets, typeKey rs ≠ "soa" := by
    intro rs hr hcon
    have hm := (wf_unpack zone_name rs (hwf rs hr)).2.2.2.2.2.1
    rw [hcon] at hm
    simp at hm
  have hrt : zoneTextRoundtrip (exportBlocks sets) = sets.map roundtripBlock := by
    rw [exportBlocks_of_wf zone_name sets hwf]
    exact roundtrip_blocks sets
  have hcells : zoneCells (sets.map roundtripBlock) = sets.map cellOf := zoneCells_roundtrip sets
  have hne : ∀ c ∈ zoneCells (sets.map roundtripBlock), c.2.2 ≠ [] := by
    rw [hcells]
    intro c hc
    simp only [List.mem_map] at hc
    obtain ⟨rs, hr, rfl⟩ := hc
    obtain ⟨_, _, _, _, _, hmem, hprop, _⟩ := wf_unpack zone_name rs (hwf rs hr)
    have hd := exportData_nonempty rs (typeKey rs) hmem hprop
    simp only [cellOf, ne_eq, List.map_eq_nil_iff]
    exact hd
  have httl : ∀ c ∈ zoneCells (sets.map roundtripBlock), ∀ e ∈ c.2.2, hasIntTtl e = true := by
    rw [hcells]
    intro c hc e he
    simp only [List.mem_map] at hc
    obtain ⟨rs, hr, rfl⟩ := hc
    obtain ⟨_, _, _, _, _, hmem, _, _⟩ := wf_unpack zone_name rs (hwf rs hr)
    simp only [cellOf, List.mem_map] at he
    obtain ⟨e0, he0, rfl⟩ := he
    exact hasIntTtl_enrich rs.name (typeKey rs) e0 rs.ttl (exportData_ttl rs (typeKey rs) hmem e0 he0)
  have hnodup : ((zoneCells (sets.map roundtripBlock)).map cellKey).Nodup := by
    rw [hcells]
    have heq : (sets.map cellOf).map cellKey = sets.map exportKey := by
      rw [List.map_map]
      rfl
    rw [heq]
    exact hkeys
  unfold importRecordSets
  rw [hrt]
  rw [originAfter_of_blocks zone_name sets hns]
  rw [importGroups_eq (sets.map roundtripBlock) hne httl hnodup]
  rw [hcells]
  rw [cellPair_map_of_wf zone_name sets hwf]
  simp only [Bind.bind, Except.bind]
  exact submit_map_of_wf zone_name sets hwf

/-- C2 (amended): the zone transform is bidirectional only on its image of
well-formed record sets: for record sets with resolvable non-soa types, dot-
free names distinct from the root label and the zone name, exactly the
matching record property populated and txt values limited to single strings
(the counterexample shows multi-string txt values break invertibility), with
pairwise distinct names and pairwise distinct concatenated import keys,
export_zone succeeds, its records are the per-set blocks, and importing the
rendered text reconstructs exactly the original record sets with types
lowered to their suffix. -/
theorem zone_roundtrip_amended (resource_group zone_name datetime : String) (sets : List RecordSet)
    (hwf : ∀ rs ∈ sets, exportWellFormedB zone_name rs = true)
    (hnames : (sets.map (fun rs => rs.name)).Nodup)
    (hkeys : (sets.map exportKey).Nodup) :
    ∃ z, export_zone resource_group zone_name datetime sets = .ok z
    ∧ zoneRecordsOf z = exportBlocks sets
    ∧ importRecordSets zone_name (zoneTextRoundtrip (zoneRecordsOf z))
      = .ok (sets.map normalizeSet) := by
  have hok : ∀ rs ∈ sets, ∃ rt, typeSuffixLower rs.type = .ok rt
      ∧ (_type_to_property_name rt).isSome := by
    intro rs hr
    obtain ⟨htk, _, _, _, _, hmem, _, _⟩ := wf_unpack zone_name rs (hwf rs hr)
    refine ⟨typeKey rs, htk, ?_⟩
    have h8 : ∀ rt ∈ ["a", "aaaa", "cname", "mx", "ns", "ptr", "srv", "txt"],
        (_type_to_property_name rt).isSome = true := by decide
    exact h8 (typeKey rs) hmem
  have hdirn : ∀ rs ∈ sets,
      rs.name ∉ (["$origin", "resource-group", "zone-name", "datetime", "$ttl"] : List String) :=
    fun rs hr => (wf_unpack zone_name rs (hwf rs hr)).2.2.2.2.1
  have hT : ∀ rs ∈ sets, (rs.name == "$ttl") = false := by
    intro rs hr
    refine beq_eq_false_iff_ne.mpr ?_
    intro heq
    exact hdirn rs hr (by rw [heq]; simp)
  obtain ⟨z, hz, hrec, _, _⟩ := export_fold sets (zoneInit resource_group zone_name datetime) hok
    (fun rs hr => zoneInit_fresh resource_group zone_name datetime rs.name (hdirn rs hr))
    hnames hT (zoneInit_noDictTtl resource_group zone_name datetime)
  have hrec2 : zoneRecordsOf z = exportBlocks sets := by
    rw [hrec]
    rfl
  refine ⟨z, hz, hrec2, ?_⟩
  rw [hrec2]
  exact import_of_export zone_name sets hwf hkeys

/-- A one-element list of well-formed record sets for the roundtrip. -/
def wSets : List RecordSet :=
  [{ name := "www", type := "Microsoft.Network/dnszones/A", ttl := 3600,
     arecords := some [⟨"1.2.3.4"⟩] }]

/-- C2 witness: the amended roundtrip at a concrete well-formed A record set,
whose hypotheses hold by computation. -/
theorem zone_roundtrip_amended_witness :
    (∀ rs ∈ wSets, exportWellFormedB "zone.com" rs = true)
    ∧ (wSets.map (fun rs => rs.name)).Nodup
    ∧ (wSets.map exportKey).Nodup
    ∧ (∃ z, export_zone "rg" "zone.com" "dt" wSets = .ok z
        ∧ zoneRecordsOf z = exportBlocks wSets
        ∧ importRecordSets "zone.com" (zoneTextRoundtrip (zoneRecordsOf z))
          = .ok (wSets.map normalizeSet)) :=
  ⟨by decide, by decide, by decide,
   zone_roundtrip_amended "rg" "zone.com" "dt" wSets (by decide) (by decide) (by decide)⟩

end AzCli
